import Mathlib

/-!
Verification development for a software 3D rasterisation engine.

The C++ sources are embedded shallowly:
* `double` arithmetic is modelled by exact rational arithmetic (`ℚ`);
* machine `int` loop counters and pixel coordinates are modelled by `Int`/`Nat`;
* raw arrays are modelled by total functions `Nat → ℚ` together with an
  explicit "junk" function standing for the indeterminate contents of a
  default-initialised `std::array`;
* fallible operations return `Option`.

Section 1: linear-algebra kernel (`Maths/Vector.hpp`, `Maths/Matrix.hpp`,
`Maths/Transform.hpp`).
-/

/-- Update of a flat array modelled as a function: position `i` is set to `v`,
all other positions keep their previous contents. -/
def updArr (d : Nat → ℚ) (i : Nat) (v : ℚ) : Nat → ℚ :=
  fun j => if j = i then v else d j

/-- Loop `for (const T& elem : elems) { data[i] = elem; i++; }` of the
init-list constructors of `Vector` and `Matrix`: writes the elements of
`elems` at consecutive positions starting at `i`. -/
def write_seq (d : Nat → ℚ) (i : Nat) : List ℚ → (Nat → ℚ)
  | [] => d
  | x :: xs => write_seq (updArr d i x) (i + 1) xs

/-- Loop `for (; i < N; i++) { data[i] = 0; }` of the `Vector` init-list
constructor, with `count = N - i` remaining iterations: zeroes positions
`i, i+1, …, i+count-1`. -/
def zero_fill (d : Nat → ℚ) (i : Nat) : Nat → (Nat → ℚ)
  | 0 => d
  | count + 1 => zero_fill (updArr d i 0) (i + 1) count

/-- Vector init-list constructor (`Vector.hpp`): if more than `N` elements are
given, a `length_error` is thrown (modelled as `none`); otherwise the leading
elements are written over the indeterminate array contents `junk` and the
remaining positions up to `N` are set to zero. -/
def vector_init (N : Nat) (junk : Nat → ℚ) (elems : List ℚ) : Option (Nat → ℚ) :=
  if N < elems.length then none
  else some (zero_fill (write_seq junk 0 elems) elems.length (N - elems.length))

/-- Matrix init-list constructor (`Matrix.hpp`): if more than `M * N` elements
are given, a `length_error` is thrown (modelled as `none`); otherwise the
leading elements are written over the indeterminate array contents `junk`.
Unlike the `Vector` constructor there is no zero-filling loop. -/
def matrix_init (M N : Nat) (junk : Nat → ℚ) (elems : List ℚ) : Option (Nat → ℚ) :=
  if M * N < elems.length then none
  else some (write_seq junk 0 elems)

/-- Matrix whose entries are all zero, as produced by the default `Matrix`
constructor. -/
def matrix_zero : Nat → Nat → ℚ := fun _ _ => 0

/-- Update of a matrix modelled as a curried function: entry `(a, b)` is set
to `v`. -/
def updMat (m : Nat → Nat → ℚ) (a b : Nat) (v : ℚ) : Nat → Nat → ℚ :=
  fun x y => if x = a ∧ y = b then v else m x y

/-- Embedding of `Maths::make_identity<N>` (`Transform.hpp`): starting from the
zero matrix, the loop body executes `res(i, i) = 1; res(i, N - 1) = 1;` for
each `i < N`. -/
def make_identity (N : Nat) : Nat → Nat → ℚ :=
  (List.range N).foldl (fun m i => updMat (updMat m i i 1) i (N - 1) 1) matrix_zero

/-- Matrix-vector product `res(i) = Σ_j mat(i, j) * vec(j)` from
`Matrix.hpp`, for an `M × N` matrix (only the contraction dimension `N` is
needed). -/
def mat_vec_mul (N : Nat) (mat : Nat → Nat → ℚ) (v : Nat → ℚ) : Nat → ℚ :=
  fun i => (List.range N).foldl (fun sum j => sum + mat i j * v j) 0

/-!
Section 2: geometry primitives and the generic clipper
(`Graphics/Model.hpp`, `Graphics/Renderer.hpp`, `Graphics/Renderer.cpp`).
-/

/-- Embedding of `Graphics::Point` (`Model.hpp`): a homogeneous position,
camera-space vertex attributes, and the divided-by-z companions. -/
structure Point where
  posX : ℚ
  posY : ℚ
  posZ : ℚ
  posW : ℚ
  i : ℚ
  r : ℚ
  g : ℚ
  b : ℚ
  tex_x : ℚ
  tex_y : ℚ
  inv_z : ℚ
  i_div_z : ℚ
  r_div_z : ℚ
  g_div_z : ℚ
  b_div_z : ℚ
  tex_x_div_z : ℚ
  tex_y_div_z : ℚ
  deriving DecidableEq, Inhabited

/-- Embedding of `Graphics::Triangle` (`Model.hpp`): three points. -/
structure Triangle where
  p0 : Point
  p1 : Point
  p2 : Point
  deriving DecidableEq, Inhabited

/-- The three points of a triangle as a list, in vertex order. -/
def Triangle.points (t : Triangle) : List Point := [t.p0, t.p1, t.p2]

/-- Loop body of `Renderer::clip_points` for one directed edge `(pi, pj)`:
emit `pi` when it is in the viewing region, then emit the boundary
intersection when the two endpoints have different membership. -/
def clip_edge (F : Point → Bool) (G : Point → Point → Point) (pi pj : Point) :
    List Point :=
  (if F pi then [pi] else []) ++ (if F pi ≠ F pj then [G pi pj] else [])

/-- Embedding of `Renderer::clip_points` (`Renderer.hpp`): walk the perimeter
of the triangle, executing the loop body for the edges `(v0, v1)`, `(v1, v2)`
and `(v2, v0)` (loop index `i = 0, 1, 2` with `next_i = (i + 1) % 3`).  The
emitted list is `out[0..n)`. -/
def clip_points (t : Triangle) (F : Point → Bool) (G : Point → Point → Point) :
    List Point :=
  clip_edge F G t.p0 t.p1 ++ clip_edge F G t.p1 t.p2 ++ clip_edge F G t.p2 t.p0

/-- Embedding of `Renderer::make_triangles` (`Renderer.cpp`): fan-triangulate
the vertex list, producing `(in[0], in[k], in[k+1])` for `k = 1 … n - 2`. -/
def make_triangles (pts : List Point) : List Triangle :=
  (List.range (pts.length - 2)).map
    (fun k => ⟨pts.getD 0 default, pts.getD (k + 1) default, pts.getD (k + 2) default⟩)

/-!
Section 3: theorems for claims C1, C9, C10.
-/

theorem make_triangles_nil : make_triangles [] = [] := by
  simp [make_triangles]

theorem make_triangles_three (a c d : Point) :
    make_triangles [a, c, d] = [⟨a, c, d⟩] := by
  simp [make_triangles, List.range_succ]

theorem make_triangles_four (a c d e : Point) :
    make_triangles [a, c, d, e] = [⟨a, c, d⟩, ⟨a, d, e⟩] := by
  simp [make_triangles, List.range_succ]

/-- Claim C1: for every input triangle and every membership predicate with its
matching intersection functor, `clip_points` emits a vertex list of length 0,
3 or 4 (never 1 or 2), and `make_triangles` fan-triangulates it into no
triangle, the single triangle `(o0, o1, o2)`, or the two triangles
`(o0, o1, o2)` and `(o0, o2, o3)` respectively. -/
theorem clip_points_make_triangles_spec (t : Triangle) (F : Point → Bool)
    (G : Point → Point → Point) :
    ((clip_points t F G).length = 0 ∨ (clip_points t F G).length = 3 ∨
      (clip_points t F G).length = 4) ∧
    ((clip_points t F G = [] ∧ make_triangles (clip_points t F G) = []) ∨
      (∃ o0 o1 o2, clip_points t F G = [o0, o1, o2] ∧
        make_triangles (clip_points t F G) = [⟨o0, o1, o2⟩]) ∨
      (∃ o0 o1 o2 o3, clip_points t F G = [o0, o1, o2, o3] ∧
        make_triangles (clip_points t F G) = [⟨o0, o1, o2⟩, ⟨o0, o2, o3⟩])) := by
  cases h0 : F t.p0 <;> cases h1 : F t.p1 <;> cases h2 : F t.p2
  · have hcp : clip_points t F G = [] := by
      simp [clip_points, clip_edge, h0, h1, h2]
    rw [hcp]
    exact ⟨Or.inl rfl, Or.inl ⟨rfl, make_triangles_nil⟩⟩
  · have hcp : clip_points t F G = [G t.p1 t.p2, t.p2, G t.p2 t.p0] := by
      simp [clip_points, clip_edge, h0, h1, h2]
    rw [hcp]
    exact ⟨Or.inr (Or.inl rfl),
      Or.inr (Or.inl ⟨_, _, _, rfl, make_triangles_three _ _ _⟩)⟩
  · have hcp : clip_points t F G = [G t.p0 t.p1, t.p1, G t.p1 t.p2] := by
      simp [clip_points, clip_edge, h0, h1, h2]
    rw [hcp]
    exact ⟨Or.inr (Or.inl rfl),
      Or.inr (Or.inl ⟨_, _, _, rfl, make_triangles_three _ _ _⟩)⟩
  · have hcp : clip_points t F G = [G t.p0 t.p1, t.p1, t.p2, G t.p2 t.p0] := by
      simp [clip_points, clip_edge, h0, h1, h2]
    rw [hcp]
    exact ⟨Or.inr (Or.inr rfl),
      Or.inr (Or.inr ⟨_, _, _, _, rfl, make_triangles_four _ _ _ _⟩)⟩
  · have hcp : clip_points t F G = [t.p0, G t.p0 t.p1, G t.p2 t.p0] := by
      simp [clip_points, clip_edge, h0, h1, h2]
    rw [hcp]
    exact ⟨Or.inr (Or.inl rfl),
      Or.inr (Or.inl ⟨_, _, _, rfl, make_triangles_three _ _ _⟩)⟩
  · have hcp : clip_points t F G = [t.p0, G t.p0 t.p1, G t.p1 t.p2, t.p2] := by
      simp [clip_points, clip_edge, h0, h1, h2]
    rw [hcp]
    exact ⟨Or.inr (Or.inr rfl),
      Or.inr (Or.inr ⟨_, _, _, _, rfl, make_triangles_four _ _ _ _⟩)⟩
  · have hcp : clip_points t F G = [t.p0, t.p1, G t.p1 t.p2, G t.p2 t.p0] := by
      simp [clip_points, clip_edge, h0, h1, h2]
    rw [hcp]
    exact ⟨Or.inr (Or.inr rfl),
      Or.inr (Or.inr ⟨_, _, _, _, rfl, make_triangles_four _ _ _ _⟩)⟩
  · have hcp : clip_points t F G = [t.p0, t.p1, t.p2] := by
      simp [clip_points, clip_edge, h0, h1, h2]
    rw [hcp]
    exact ⟨Or.inr (Or.inl rfl),
      Or.inr (Or.inl ⟨_, _, _, rfl, make_triangles_three _ _ _⟩)⟩

/-!
Claims C9 and C10 concern the init-list constructors and `make_identity`.

First, pointwise characterisations of the two helper loops.
-/

theorem write_seq_eval (xs : List ℚ) : ∀ (d : Nat → ℚ) (i j : Nat),
    write_seq d i xs j =
      if i ≤ j ∧ j < i + xs.length then xs.getD (j - i) 0 else d j := by
  induction xs with
  | nil =>
    intro d i j
    simp only [write_seq, List.length_nil, Nat.add_zero]
    rw [if_neg (by omega)]
  | cons x xs ih =>
    intro d i j
    rw [write_seq, ih]
    simp only [List.length_cons]
    by_cases hij : i + 1 ≤ j ∧ j < i + 1 + xs.length
    · rw [if_pos hij, if_pos (by omega)]
      have hji : j - i = (j - (i + 1)) + 1 := by omega
      rw [hji, List.getD_cons_succ]
    · rw [if_neg hij]
      by_cases hj : j = i
      · subst hj
        rw [if_pos (by omega)]
        simp [updArr]
      · simp only [updArr, if_neg hj]
        rw [if_neg (by omega)]

theorem zero_fill_eval : ∀ (count : Nat) (d : Nat → ℚ) (i j : Nat),
    zero_fill d i count j = if i ≤ j ∧ j < i + count then 0 else d j := by
  intro count
  induction count with
  | zero =>
    intro d i j
    simp only [zero_fill]
    rw [if_neg (by omega)]
  | succ n ih =>
    intro d i j
    rw [zero_fill, ih]
    by_cases hij : i + 1 ≤ j ∧ j < i + 1 + n
    · rw [if_pos hij, if_pos (by omega)]
    · rw [if_neg hij]
      by_cases hj : j = i
      · subst hj
        rw [if_pos (by omega)]
        simp [updArr]
      · simp only [updArr, if_neg hj]
        rw [if_neg (by omega)]

/-- Claim C9, counterexample: the `Matrix` init-list constructor does not
zero-fill the trailing elements.  Constructing a 2×2 matrix from the one-item
list `[1]` over a backing array holding `7` everywhere succeeds (no shape
error) and leaves element 1 equal to the junk value `7`, not `0`. -/
theorem matrix_init_not_zero_filled :
    (matrix_init 2 2 (fun _ => 7) [1]).getD (fun _ => 0) 1 = 7 ∧ (7 : ℚ) ≠ 0 := by
  constructor
  · rfl
  · norm_num

/-- Claim C9, amended: for both constructors an init list longer than the
dimension (`N`, respectively `M * N`) raises a length error, and a shorter
list sets the leading elements from the list; the `Vector` constructor then
zeroes every remaining element, while the `Matrix` constructor leaves every
remaining element at whatever the backing array previously held.  Both
constructors are characterised pointwise at every index. -/
theorem init_list_construction_spec (N M : Nat) (junk : Nat → ℚ) (elems : List ℚ) :
    (N < elems.length → vector_init N junk elems = none) ∧
    (M * N < elems.length → matrix_init M N junk elems = none) ∧
    (elems.length ≤ N →
      vector_init N junk elems =
        some (fun k => if k < elems.length then elems.getD k 0
          else if k < N then 0 else junk k)) ∧
    (elems.length ≤ M * N →
      matrix_init M N junk elems =
        some (fun k => if k < elems.length then elems.getD k 0 else junk k)) := by
  refine ⟨fun h => by simp [vector_init, h], fun h => by simp [matrix_init, h], ?_, ?_⟩
  · intro h
    rw [vector_init, if_neg (by omega)]
    refine congrArg some (funext fun k => ?_)
    rw [zero_fill_eval, write_seq_eval]
    simp only [Nat.zero_add, Nat.sub_zero, Nat.zero_le, true_and]
    by_cases hk1 : k < elems.length
    · have c1 : ¬(elems.length ≤ k ∧ k < elems.length + (N - elems.length)) := by omega
      rw [if_neg c1, if_pos hk1, if_pos hk1]
    · by_cases hk2 : k < N
      · have c1 : elems.length ≤ k ∧ k < elems.length + (N - elems.length) := by omega
        rw [if_pos c1, if_neg hk1, if_pos hk2]
      · have c1 : ¬(elems.length ≤ k ∧ k < elems.length + (N - elems.length)) := by omega
        rw [if_neg c1, if_neg hk1, if_neg hk1, if_neg hk2]
  · intro h
    rw [matrix_init, if_neg (by omega)]
    refine congrArg some (funext fun k => ?_)
    rw [write_seq_eval]
    simp only [Nat.zero_add, Nat.sub_zero, Nat.zero_le, true_and]

/-- Claim C9, witness: concrete instantiation of the amended statement at
`N = 3`, `M = 2`, junk value `7`, init list `[5]`: the vector holds
`5, 0, 0` and the matrix holds `5` followed by the junk contents `7`. -/
theorem init_list_construction_spec_witness :
    vector_init 3 (fun _ => 7) [5] =
      some (fun k => if k < [(5 : ℚ)].length then [(5 : ℚ)].getD k 0
        else if k < 3 then 0 else (fun _ => (7 : ℚ)) k) ∧
    matrix_init 2 3 (fun _ => 7) [5] =
      some (fun k => if k < [(5 : ℚ)].length then [(5 : ℚ)].getD k 0
        else (fun _ => (7 : ℚ)) k) := by
  exact ⟨(init_list_construction_spec 3 2 (fun _ => 7) [5]).2.2.1 (by simp),
    (init_list_construction_spec 3 2 (fun _ => 7) [5]).2.2.2 (by simp)⟩

/-- Claim C10: `make_identity` does not build the identity matrix.  Its loop
body also sets `res(i, N - 1) = 1`, so for `N = 2` the off-diagonal entry
`(0, 1)` is `1`, and multiplying by the vector `(0, 1)` yields `(1, 1)`,
not `(0, 1)`.  (The function's own comment promises the N×N identity.) -/
theorem make_identity_extra_column_at_two :
    make_identity 2 0 0 = 1 ∧ make_identity 2 0 1 = 1 ∧
    make_identity 2 1 0 = 0 ∧ make_identity 2 1 1 = 1 ∧
    mat_vec_mul 2 (make_identity 2) (fun j => if j = 1 then 1 else 0) 0 = 1 ∧
    (fun j => if j = 1 then (1 : ℚ) else 0) 0 = 0 := by
  refine ⟨by decide, by decide, by decide, by decide, ?_, by decide⟩
  simp [mat_vec_mul, make_identity, updMat, matrix_zero, List.range_succ]

/-!
Section 4: the generic `clip_triangles` pass and near-plane clipping
(`Renderer.hpp` `clip_triangles`, `Renderer.cpp` `clip_near_plane`).
-/

/-- Iteration of `Renderer::clip_triangles` over the active list.  For each
active index the triangle is clipped and fan-triangulated; on zero output
triangles the index is erased, on one the slot is overwritten, on two the slot
is overwritten, the second triangle is appended to the buffer, and its index
`triangles.size() - 1` is pushed to the front of the active list.  The result
is `(buffer, new indices in creation order, surviving indices in order)`; the
final active list of the C++ code is `newIndices.reverse ++ survivors`
(each `push_front` places the newest index first, and the iterator never
revisits the front of the list). -/
def clip_triangles_aux (F : Point → Bool) (G : Point → Point → Point) :
    List Triangle → List Nat → List Triangle × List Nat × List Nat
  | tris, [] => (tris, [], [])
  | tris, idx :: rest =>
    let t := tris.getD idx default
    match make_triangles (clip_points t F G) with
    | [] => clip_triangles_aux F G tris rest
    | [t1] =>
      let r := clip_triangles_aux F G (tris.set idx t1) rest
      (r.1, r.2.1, idx :: r.2.2)
    | t1 :: t2 :: _ =>
      let r := clip_triangles_aux F G (tris.set idx t1 ++ [t2]) rest
      (r.1, tris.length :: r.2.1, idx :: r.2.2)

/-- Embedding of `Renderer::clip_triangles`: the updated triangle buffer and
the final active list. -/
def clip_triangles (F : Point → Bool) (G : Point → Point → Point)
    (tris : List Triangle) (act : List Nat) : List Triangle × List Nat :=
  let r := clip_triangles_aux F G tris act
  (r.1, r.2.1.reverse ++ r.2.2)

/-- Predicate lambda of `Renderer::clip_near_plane`:
`point.pos(2) >= view_plane_distance`. -/
def near_in_region (d : ℚ) (p : Point) : Bool :=
  decide (d ≤ p.posZ)

/-- Intersection lambda of `Renderer::clip_near_plane`: the position and the
camera-space attributes are interpolated linearly with
`scale = (view_plane_distance - p1.z) / (p2.z - p1.z)`, and every
divided-by-z companion field is set to zero. -/
def near_intersect (d : ℚ) (p1 p2 : Point) : Point :=
  let scale := (d - p1.posZ) / (p2.posZ - p1.posZ)
  { posX := p1.posX + scale * (p2.posX - p1.posX)
    posY := p1.posY + scale * (p2.posY - p1.posY)
    posZ := p1.posZ + scale * (p2.posZ - p1.posZ)
    posW := p1.posW + scale * (p2.posW - p1.posW)
    i := p1.i + scale * (p2.i - p1.i)
    r := p1.r + scale * (p2.r - p1.r)
    g := p1.g + scale * (p2.g - p1.g)
    b := p1.b + scale * (p2.b - p1.b)
    tex_x := p1.tex_x + scale * (p2.tex_x - p1.tex_x)
    tex_y := p1.tex_y + scale * (p2.tex_y - p1.tex_y)
    inv_z := 0
    i_div_z := 0
    r_div_z := 0
    g_div_z := 0
    b_div_z := 0
    tex_x_div_z := 0
    tex_y_div_z := 0 }

/-- Embedding of `Renderer::clip_near_plane`: `clip_triangles` instantiated
with the two lambdas above. -/
def clip_near_plane (d : ℚ) (tris : List Triangle) (act : List Nat) :
    List Triangle × List Nat :=
  clip_triangles (near_in_region d) (near_intersect d) tris act

/-- A point emitted for one edge satisfies any property that holds of
in-region vertices and of intersections of membership-changing edges. -/
theorem clip_edge_sat {P : Point → Prop} {F : Point → Bool}
    {G : Point → Point → Point} (hF : ∀ p, F p = true → P p)
    (hG : ∀ a c, F a ≠ F c → P (G a c)) (pa pb : Point) :
    ∀ q ∈ clip_edge F G pa pb, P q := by
  intro q hq
  rcases List.mem_append.mp hq with h | h
  · by_cases hfi : F pa
    · simp only [clip_edge, if_pos hfi, List.mem_singleton] at h
      subst h
      exact hF _ hfi
    · simp [clip_edge, if_neg hfi] at h
  · by_cases hne : F pa ≠ F pb
    · simp only [clip_edge, if_pos hne, List.mem_singleton] at h
      subst h
      exact hG _ _ hne
    · simp [clip_edge, if_neg hne] at h

/-- Every point emitted by `clip_points` satisfies any property that holds of
in-region vertices and of intersections of membership-changing edges. -/
theorem clip_points_sat {P : Point → Prop} {F : Point → Bool}
    {G : Point → Point → Point} (hF : ∀ p, F p = true → P p)
    (hG : ∀ a c, F a ≠ F c → P (G a c)) (t : Triangle) :
    ∀ q ∈ clip_points t F G, P q := by
  intro q hq
  rcases List.mem_append.mp hq with h | h
  · rcases List.mem_append.mp h with h' | h'
    · exact clip_edge_sat hF hG t.p0 t.p1 q h'
    · exact clip_edge_sat hF hG t.p1 t.p2 q h'
  · exact clip_edge_sat hF hG t.p2 t.p0 q h

/-- A property holding of every vertex in the clipped list holds of every
vertex of every fan triangle built from it. -/
theorem make_triangles_sat {P : Point → Prop} {pts : List Point}
    (hpts : ∀ q ∈ pts, P q) :
    ∀ tr ∈ make_triangles pts, P tr.p0 ∧ P tr.p1 ∧ P tr.p2 := by
  intro tr htr
  simp only [make_triangles, List.mem_map, List.mem_range] at htr
  obtain ⟨k, hk, rfl⟩ := htr
  have h0 : (0 : Nat) < pts.length := by omega
  have h1 : k + 1 < pts.length := by omega
  have h2 : k + 2 < pts.length := by omega
  refine ⟨hpts _ ?_, hpts _ ?_, hpts _ ?_⟩
  · rw [List.getD_eq_getElem _ _ h0]; exact List.getElem_mem h0
  · rw [List.getD_eq_getElem _ _ h1]; exact List.getElem_mem h1
  · rw [List.getD_eq_getElem _ _ h2]; exact List.getElem_mem h2

/-- Shorthand: all three vertices of a triangle satisfy `P`. -/
def triSat (P : Point → Prop) (t : Triangle) : Prop :=
  P t.p0 ∧ P t.p1 ∧ P t.p2

theorem getD_set_self (l : List Triangle) (idx : Nat) (a : Triangle)
    (h : idx < l.length) : (l.set idx a).getD idx default = a := by
  rw [List.getD_eq_getElem _ _ (by simpa using h)]
  simp [List.getElem_set, h]

theorem getD_set_ne (l : List Triangle) (idx j : Nat) (a : Triangle)
    (h : j ≠ idx) : (l.set idx a).getD j default = l.getD j default := by
  by_cases hj : j < l.length
  · rw [List.getD_eq_getElem _ _ (by simpa using hj), List.getD_eq_getElem _ _ hj]
    simp [List.getElem_set, h.symm]
  · rw [List.getD_eq_default _ _ (by simpa using hj), List.getD_eq_default _ _ (by omega)]

theorem getD_append_left (l l' : List Triangle) (j : Nat) (h : j < l.length) :
    (l ++ l').getD j default = l.getD j default := by
  rw [List.getD_eq_getElem _ _ (by simp; omega), List.getD_eq_getElem _ _ h]
  exact List.getElem_append_left _

theorem getD_append_length (l : List Triangle) (a : Triangle) :
    (l ++ [a]).getD l.length default = a := by
  rw [List.getD_eq_getElem _ _ (by simp)]
  simp

/-- Main invariant of the clipping pass: if every triangle produced by
clip-and-fan satisfies `triSat P`, then (i) the buffer only grows, (ii) slots
already satisfying `triSat P` keep satisfying it, and (iii) every index left
in the active output points into the buffer at a triangle satisfying
`triSat P`. -/
theorem clip_triangles_aux_invariant {P : Point → Prop} (F : Point → Bool)
    (G : Point → Point → Point)
    (hout : ∀ t : Triangle, ∀ tr ∈ make_triangles (clip_points t F G), triSat P tr) :
    ∀ (act : List Nat) (tris : List Triangle),
      (∀ i ∈ act, i < tris.length) →
      tris.length ≤ (clip_triangles_aux F G tris act).1.length ∧
      (∀ j, triSat P (tris.getD j default) →
        triSat P ((clip_triangles_aux F G tris act).1.getD j default)) ∧
      (∀ i ∈ (clip_triangles_aux F G tris act).2.1 ++ (clip_triangles_aux F G tris act).2.2,
        i < (clip_triangles_aux F G tris act).1.length ∧
        triSat P ((clip_triangles_aux F G tris act).1.getD i default)) := by
  intro act
  induction act with
  | nil =>
    intro tris _
    refine ⟨le_refl _, fun j hj => ?_, fun i hi => ?_⟩
    · simpa [clip_triangles_aux] using hj
    · simp [clip_triangles_aux] at hi
  | cons idx rest ih =>
    intro tris hval
    have hidx : idx < tris.length := hval idx (List.mem_cons_self idx rest)
    have hvrest : ∀ i ∈ rest, i < tris.length :=
      fun i hi => hval i (List.mem_cons_of_mem idx hi)
    rw [clip_triangles_aux]
    cases houts : make_triangles (clip_points (tris.getD idx default) F G) with
    | nil =>
      simpa using ih tris hvrest
    | cons t1 ts =>
      have ht1 : triSat P t1 := hout _ t1 (by rw [houts]; exact List.mem_cons_self _ _)
      cases ts with
      | nil =>
        simp only []
        have hlen2 : (tris.set idx t1).length = tris.length := List.length_set tris idx t1
        have hpres2 : ∀ j, triSat P (tris.getD j default) →
            triSat P ((tris.set idx t1).getD j default) := by
          intro j hj
          by_cases hji : j = idx
          · subst hji
            rw [getD_set_self _ _ _ hidx]
            exact ht1
          · rw [getD_set_ne _ _ _ _ hji]
            exact hj
        obtain ⟨ihlen, ihpres, ihact⟩ := ih (tris.set idx t1) (by rw [hlen2]; exact hvrest)
        refine ⟨by omega, fun j hj => ihpres j (hpres2 j hj), fun i hi => ?_⟩
        simp only [List.mem_append, List.mem_cons] at hi
        rcases hi with hi | hi | hi
        · exact ihact i (List.mem_append.mpr (Or.inl hi))
        · rw [hi]
          refine ⟨by omega, ihpres idx ?_⟩
          rw [getD_set_self _ _ _ hidx]
          exact ht1
        · exact ihact i (List.mem_append.mpr (Or.inr hi))
      | cons t2 ts2 =>
        simp only []
        have ht2 : triSat P t2 := hout _ t2 (by rw [houts]; simp)
        have hlen2 : (tris.set idx t1 ++ [t2]).length = tris.length + 1 := by
          simp
        have hpres2 : ∀ j, triSat P (tris.getD j default) →
            triSat P ((tris.set idx t1 ++ [t2]).getD j default) := by
          intro j hj
          by_cases hjl : j < tris.length
          · rw [getD_append_left _ _ _ (by simpa using hjl)]
            by_cases hji : j = idx
            · subst hji
              rw [getD_set_self _ _ _ hidx]
              exact ht1
            · rw [getD_set_ne _ _ _ _ hji]
              exact hj
          · rw [List.getD_eq_default _ _ (by omega)] at hj
            by_cases hje : j = tris.length
            · subst hje
              have : tris.length = (tris.set idx t1).length := (List.length_set tris idx t1).symm
              rw [this, getD_append_length]
              exact ht2
            · rw [List.getD_eq_default _ _ (by simp; omega)]
              exact hj
        obtain ⟨ihlen, ihpres, ihact⟩ :=
          ih (tris.set idx t1 ++ [t2]) (by rw [hlen2]; intro i hi; have := hvrest i hi; omega)
        refine ⟨by omega, fun j hj => ihpres j (hpres2 j hj), fun i hi => ?_⟩
        simp only [List.mem_append, List.mem_cons] at hi
        rcases hi with (hi | hi) | (hi | hi)
        · subst hi
          refine ⟨by omega, ihpres tris.length ?_⟩
          have : tris.length = (tris.set idx t1).length := (List.length_set tris idx t1).symm
          rw [this, getD_append_length]
          exact ht2
        · exact ihact i (List.mem_append.mpr (Or.inl hi))
        · rw [hi]
          refine ⟨by omega, ihpres idx ?_⟩
          rw [getD_append_left _ _ _ (by simpa using hidx), getD_set_self _ _ _ hidx]
          exact ht1
        · exact ihact i (List.mem_append.mpr (Or.inr hi))

/-- When an edge changes membership, the interpolation parameter cancels
exactly and the intersection point lies on the near plane `z = d`. -/
theorem near_intersect_posZ (d : ℚ) (p1 p2 : Point)
    (h : near_in_region d p1 ≠ near_in_region d p2) :
    (near_intersect d p1 p2).posZ = d := by
  have hz : p2.posZ - p1.posZ ≠ 0 := by
    intro hzero
    have : p1.posZ = p2.posZ := by linarith [sub_eq_zero.mp hzero]
    apply h
    simp [near_in_region, this]
  simp only [near_intersect]
  rw [div_mul_cancel₀ _ hz]
  ring

/-- Claim C2: after the near-plane clipping stage, every index left in the
active list is a valid buffer slot and every vertex of its triangle has
camera-space `z ≥ view_plane_distance`; when the view-plane distance is
positive the `z` coordinates are therefore strictly positive, so the
perspective divisions of the projection stage are all defined. -/
theorem clip_near_plane_z_invariant (d : ℚ) (hd : 0 < d)
    (tris : List Triangle) (act : List Nat)
    (hval : ∀ i ∈ act, i < tris.length) :
    ∀ i ∈ (clip_near_plane d tris act).2,
      i < (clip_near_plane d tris act).1.length ∧
      ∀ q ∈ ((clip_near_plane d tris act).1.getD i default).points,
        d ≤ q.posZ ∧ 0 < q.posZ := by
  have hF : ∀ p : Point, near_in_region d p = true → d ≤ p.posZ ∧ 0 < p.posZ := by
    intro p hp
    have hle : d ≤ p.posZ := by simpa [near_in_region] using hp
    exact ⟨hle, lt_of_lt_of_le hd hle⟩
  have hG : ∀ a c : Point, near_in_region d a ≠ near_in_region d c →
      d ≤ (near_intersect d a c).posZ ∧ 0 < (near_intersect d a c).posZ := by
    intro a c hac
    rw [near_intersect_posZ d a c hac]
    exact ⟨le_refl d, hd⟩
  have hout : ∀ t : Triangle,
      ∀ tr ∈ make_triangles (clip_points t (near_in_region d) (near_intersect d)),
        triSat (fun q => d ≤ q.posZ ∧ 0 < q.posZ) tr := by
    intro t tr htr
    exact make_triangles_sat (clip_points_sat hF hG t) tr htr
  obtain ⟨-, -, hact⟩ :=
    clip_triangles_aux_invariant (near_in_region d) (near_intersect d) hout act tris hval
  intro i hi
  have hi' : i ∈ (clip_triangles_aux (near_in_region d) (near_intersect d) tris act).2.1 ++
      (clip_triangles_aux (near_in_region d) (near_intersect d) tris act).2.2 := by
    simpa [clip_near_plane, clip_triangles, List.mem_append, List.mem_reverse,
      or_comm] using hi
  obtain ⟨hlen, hsat⟩ := hact i hi'
  refine ⟨hlen, ?_⟩
  intro q hq
  simp only [Triangle.points, List.mem_cons, List.not_mem_nil, or_false] at hq
  have hres : (clip_near_plane d tris act).1 =
      (clip_triangles_aux (near_in_region d) (near_intersect d) tris act).1 := rfl
  rcases hq with rfl | rfl | rfl
  · rw [hres]; exact hsat.1
  · rw [hres]; exact hsat.2.1
  · rw [hres]; exact hsat.2.2

/-- Concrete triangle on the plane `z = 2` used by the C2 witness. -/
def sampleTriZ2 : Triangle :=
  { p0 := { posX := 0, posY := 0, posZ := 2, posW := 1, i := 0, r := 0, g := 0, b := 0,
            tex_x := 0, tex_y := 0, inv_z := 0, i_div_z := 0, r_div_z := 0, g_div_z := 0,
            b_div_z := 0, tex_x_div_z := 0, tex_y_div_z := 0 }
    p1 := { posX := 1, posY := 0, posZ := 2, posW := 1, i := 0, r := 0, g := 0, b := 0,
            tex_x := 0, tex_y := 0, inv_z := 0, i_div_z := 0, r_div_z := 0, g_div_z := 0,
            b_div_z := 0, tex_x_div_z := 0, tex_y_div_z := 0 }
    p2 := { posX := 0, posY := 1, posZ := 2, posW := 1, i := 0, r := 0, g := 0, b := 0,
            tex_x := 0, tex_y := 0, inv_z := 0, i_div_z := 0, r_div_z := 0, g_div_z := 0,
            b_div_z := 0, tex_x_div_z := 0, tex_y_div_z := 0 } }

/-- Claim C2, witness: the invariant theorem applied to the one-triangle scene
with `view_plane_distance = 1`, active index `0`, first vertex. -/
theorem clip_near_plane_z_invariant_witness :
    (1 : ℚ) ≤ (((clip_near_plane 1 [sampleTriZ2] [0]).1.getD 0 default)).p0.posZ ∧
    (0 : ℚ) < (((clip_near_plane 1 [sampleTriZ2] [0]).1.getD 0 default)).p0.posZ := by
  have h := clip_near_plane_z_invariant 1 (by norm_num) [sampleTriZ2] [0]
    (by intro i hi; simp only [List.mem_singleton] at hi; subst hi; simp)
    0 (by decide)
  refine ⟨(h.2 _ ?_).1, (h.2 _ ?_).2⟩ <;>
    exact List.mem_cons_self _ _

/-!
Section 5: the rasteriser (`Graphics/Rasteriser.cpp`) and its driver
(`Renderer.cpp` `rasterise_triangles`).  Pixel colours are byte triples, the
framebuffer and the depth buffer are owned by the render window.
-/

/-- Embedding of `Resources::RGBAPixel` (`load_resources.hpp`).  The C++
struct declares its byte fields in the order `a`, `b`, `g`, `r`; aggregate
initialisation assigns in that order. -/
structure RGBAPixel where
  a : Nat
  b : Nat
  g : Nat
  r : Nat
  deriving DecidableEq, Inhabited

/-- Embedding of `Resources::TrueColourBitmap` (`load_resources.hpp`). -/
structure Bitmap where
  width : Int
  height : Int
  pixels : List RGBAPixel
  deriving DecidableEq, Inhabited

/-- Embedding of `Graphics::pixel_coord` as used by the `Rasteriser.cpp`
definitions: the coordinates carry the interpolated (fractional) `x`, the
integer scanline `y`, and the divided-by-z attributes. -/
structure Coord where
  x : ℚ
  y : Int
  inv_z : ℚ
  i_div_z : ℚ
  r_div_z : ℚ
  g_div_z : ℚ
  b_div_z : ℚ
  tex_x_div_z : ℚ
  tex_y_div_z : ℚ
  deriving DecidableEq, Inhabited

/-- The seven per-step interpolated attribute quantities of a scanline or an
edge (`inv_z`, `i/z`, `r/z`, `g/z`, `b/z`, `tex_x/z`, `tex_y/z`). -/
structure Interp where
  inv_z : ℚ
  i_div_z : ℚ
  r_div_z : ℚ
  g_div_z : ℚ
  b_div_z : ℚ
  tex_x_div_z : ℚ
  tex_y_div_z : ℚ
  deriving DecidableEq, Inhabited

/-- Advance all interpolants by their one-step increments. -/
def Interp.advance (acc st : Interp) : Interp :=
  ⟨acc.inv_z + st.inv_z, acc.i_div_z + st.i_div_z, acc.r_div_z + st.r_div_z,
    acc.g_div_z + st.g_div_z, acc.b_div_z + st.b_div_z,
    acc.tex_x_div_z + st.tex_x_div_z, acc.tex_y_div_z + st.tex_y_div_z⟩

/-- The interpolated attributes carried by a `pixel_coord`. -/
def interpOf (p : Coord) : Interp :=
  ⟨p.inv_z, p.i_div_z, p.r_div_z, p.g_div_z, p.b_div_z, p.tex_x_div_z, p.tex_y_div_z⟩

/-- Render-window state: the colour framebuffer and the depth buffer, both
indexed by pixel coordinates (the window also provides the buffer extent,
passed separately below as `buffer_width`/`buffer_height`). -/
@[ext]
structure Window where
  fb : Int → Int → Nat × Nat × Nat
  depth : Int → Int → ℚ

/-- A fragment attempted by the scanline filler: target pixel, interpolated
inverse depth, and the colour that would be written (the colour computation of
`draw_shaded_row` does not depend on the buffers, so it is a function of the
interpolants and the optional bitmap only). -/
structure Frag where
  x : Int
  y : Int
  inv_z : ℚ
  col : Nat × Nat × Nat
  deriving DecidableEq, Inhabited

/-- One framebuffer / depth-buffer access performed by the scanline filler. -/
inductive Access where
  | depthRead (x y : Int)
  | pixelWrite (x y : Int)
  | depthWrite (x y : Int)
  deriving DecidableEq

/-- The x pixel coordinate of an access. -/
def Access.ax : Access → Int
  | .depthRead x _ => x
  | .pixelWrite x _ => x
  | .depthWrite x _ => x

/-- The y pixel coordinate of an access. -/
def Access.ay : Access → Int
  | .depthRead _ y => y
  | .pixelWrite _ y => y
  | .depthWrite _ y => y

/-- The property claimed of every buffer access: both coordinates are inside
the buffer extent. -/
def accInBounds (bw bh : Int) (acc : Access) : Prop :=
  0 ≤ acc.ax ∧ acc.ax < bw ∧ 0 ≤ acc.ay ∧ acc.ay < bh

instance (bw bh : Int) (acc : Access) : Decidable (accInBounds bw bh acc) := by
  unfold accInBounds; infer_instance

/-- Embedding of the static `clamp` helper of `Rasteriser.cpp`. -/
def clampQ (val low high : ℚ) : ℚ :=
  if val < low then low else if high < val then high else val

/-- Conversion `static_cast<uint8_t>` applied after `clamp(v, 0, 255)`:
truncation of the clamped non-negative value. -/
def q2u8 (v : ℚ) : Nat :=
  (⌊clampQ v 0 255⌋).toNat

/-- C++ `round`: round half away from zero. -/
def roundQ (q : ℚ) : Int :=
  if q < 0 then -⌊-q + 1 / 2⌋ else ⌊q + 1 / 2⌋

/-- Texture sampling of `draw_shaded_row`: nearest texel with clamping, with
the bitmap's y axis flipped, fetched at `pixel_y * width + pixel_x`. -/
def sampleTexel (bmp : Bitmap) (tex_x tex_y : ℚ) : RGBAPixel :=
  let px0 := roundQ (tex_x * ((bmp.width : ℚ) - 1))
  let py0 := roundQ (tex_y * ((bmp.height : ℚ) - 1))
  let px := if px0 < 0 then 0 else if bmp.width - 1 < px0 then bmp.width - 1 else px0
  let pyc := if py0 < 0 then 0 else if bmp.height - 1 < py0 then bmp.height - 1 else py0
  let py := bmp.height - 1 - pyc
  bmp.pixels.getD (py * bmp.width + px).toNat default

/-- Colour computation of one pixel of `draw_shaded_row`: recover the
attributes by dividing by `1/z`, mix with the texel when a bitmap is present
(`texel * (base / 255)`), scale by the intensity, clamp to `[0, 255]` and
truncate to bytes. -/
def fragColour (bmp? : Option Bitmap) (acc : Interp) : Nat × Nat × Nat :=
  let intensity := acc.i_div_z / acc.inv_z
  let r := acc.r_div_z / acc.inv_z
  let g := acc.g_div_z / acc.inv_z
  let b := acc.b_div_z / acc.inv_z
  let tex_x := acc.tex_x_div_z / acc.inv_z
  let tex_y := acc.tex_y_div_z / acc.inv_z
  match bmp? with
  | none =>
    (q2u8 (r * intensity), q2u8 (g * intensity), q2u8 (b * intensity))
  | some bmp =>
    let tex := sampleTexel bmp tex_x tex_y
    (q2u8 ((tex.r : ℚ) * (r / 255) * intensity),
      q2u8 ((tex.g : ℚ) * (g / 255) * intensity),
      q2u8 ((tex.b : ℚ) * (b / 255) * intensity))

/-- The fragment attempted at pixel `(x, y)` with interpolants `acc`. -/
def mkFrag (bmp? : Option Bitmap) (x y : Int) (acc : Interp) : Frag :=
  ⟨x, y, acc.inv_z, fragColour bmp? acc⟩

/-- The combined depth-and-bounds test of `draw_shaded_row`:
`inv_z > depth_buffer[x][y] && x >= 0 && x < buffer_width && y >= 0 &&
y <= buffer_height`.  Note the `y <= buffer_height` comparison of the source,
which admits `y = buffer_height`. -/
def fragTest (bw bh : Int) (w : Window) (f : Frag) : Prop :=
  w.depth f.x f.y < f.inv_z ∧ 0 ≤ f.x ∧ f.x < bw ∧ 0 ≤ f.y ∧ f.y ≤ bh

instance (bw bh : Int) (w : Window) (f : Frag) : Decidable (fragTest bw bh w f) := by
  unfold fragTest; infer_instance

/-- The two writes of a passing fragment: the pixel colour and the depth
value at the fragment's pixel. -/
def writeFrag (w : Window) (f : Frag) : Window :=
  { fb := fun u v => if u = f.x ∧ v = f.y then f.col else w.fb u v
    depth := fun u v => if u = f.x ∧ v = f.y then f.inv_z else w.depth u v }

/-- Effect of one loop iteration of `draw_shaded_row` on the window: when the
depth-and-bounds test passes, the pixel is drawn and the depth buffer is
updated to `inv_z`; otherwise nothing changes. -/
def applyFrag (bw bh : Int) (w : Window) (f : Frag) : Window :=
  if fragTest bw bh w f then writeFrag w f else w

/-- Sequential application of a list of fragments. -/
def applyFrags (bw bh : Int) (w : Window) (fs : List Frag) : Window :=
  fs.foldl (applyFrag bw bh) w

/-- Per-pixel steps of `draw_shaded_row`: each attribute difference divided by
`num_steps = abs(p2.x - p1.x)` (a C++ `int`, hence the truncation). -/
def row_steps (p1 p2 : Coord) : Interp :=
  let n : ℚ := (⌊|p2.x - p1.x|⌋ : Int)
  ⟨(p2.inv_z - p1.inv_z) / n, (p2.i_div_z - p1.i_div_z) / n,
    (p2.r_div_z - p1.r_div_z) / n, (p2.g_div_z - p1.g_div_z) / n,
    (p2.b_div_z - p1.b_div_z) / n, (p2.tex_x_div_z - p1.tex_x_div_z) / n,
    (p2.tex_y_div_z - p1.tex_y_div_z) / n⟩

/-- Pixel loop of `draw_shaded_row` (`for (int i = p1_x; i <= p2_x; i++)`),
with `n` remaining iterations: reads the depth buffer at `(x, y)`
unconditionally, then conditionally writes the pixel and the depth value, and
advances the interpolants.  The access trace is returned with the window. -/
def draw_shaded_row_loop (bmp? : Option Bitmap) (bw bh : Int) :
    Nat → Int → Int → Interp → Interp → Window → Window × List Access
  | 0, _, _, _, _, w => (w, [])
  | n + 1, x, y, acc, st, w =>
    let f := mkFrag bmp? x y acc
    let evts := Access.depthRead x y ::
      (if fragTest bw bh w f then [Access.pixelWrite x y, Access.depthWrite x y] else [])
    let rest := draw_shaded_row_loop bmp? bw bh n (x + 1) y (acc.advance st) st
      (applyFrag bw bh w f)
    (rest.1, evts ++ rest.2)

/-- Embedding of `draw_shaded_row` (`Rasteriser.cpp`): interpolate the
attributes across `floor(p1.x) … floor(p2.x)` and draw each visible pixel of
scanline `y`.  Returns the final window and the access trace. -/
def draw_shaded_row (w : Window) (y : Int) (p1 p2 : Coord) (bmp? : Option Bitmap)
    (bw bh : Int) : Window × List Access :=
  draw_shaded_row_loop bmp? bw bh (⌊p2.x⌋ - ⌊p1.x⌋ + 1).toNat ⌊p1.x⌋ y
    (interpOf p1) (row_steps p1 p2) w

/-- The fragments attempted by `draw_shaded_row`, independent of the window. -/
def row_frags_loop (bmp? : Option Bitmap) :
    Nat → Int → Int → Interp → Interp → List Frag
  | 0, _, _, _, _ => []
  | n + 1, x, y, acc, st =>
    mkFrag bmp? x y acc :: row_frags_loop bmp? n (x + 1) y (acc.advance st) st

/-- Fragment list of one scanline call. -/
def row_frags (y : Int) (p1 p2 : Coord) (bmp? : Option Bitmap) : List Frag :=
  row_frags_loop bmp? (⌊p2.x⌋ - ⌊p1.x⌋ + 1).toNat ⌊p1.x⌋ y
    (interpOf p1) (row_steps p1 p2)

theorem draw_shaded_row_loop_window (bmp? : Option Bitmap) (bw bh : Int) :
    ∀ (n : Nat) (x y : Int) (acc st : Interp) (w : Window),
      (draw_shaded_row_loop bmp? bw bh n x y acc st w).1 =
        applyFrags bw bh w (row_frags_loop bmp? n x y acc st) := by
  intro n
  induction n with
  | zero => intro x y acc st w; rfl
  | succ n ih =>
    intro x y acc st w
    rw [draw_shaded_row_loop, row_frags_loop]
    simp only [applyFrags, List.foldl_cons]
    exact ih (x + 1) y (acc.advance st) st _

theorem draw_shaded_row_window (w : Window) (y : Int) (p1 p2 : Coord)
    (bmp? : Option Bitmap) (bw bh : Int) :
    (draw_shaded_row w y p1 p2 bmp? bw bh).1 =
      applyFrags bw bh w (row_frags y p1 p2 bmp?) := by
  rw [draw_shaded_row, row_frags, draw_shaded_row_loop_window]

/-- The three conditional swaps at the top of `draw_shaded_triangle`, ordering
the vertices by ascending `y`. -/
def sortCoords (p1 p2 p3 : Coord) : Coord × Coord × Coord :=
  let q := if p1.y > p2.y then (p2, p1) else (p1, p2)
  let q' := if q.2.y > p3.y then (q.1, p3, q.2) else (q.1, q.2, p3)
  if q'.1.y > q'.2.1.y then (q'.2.1, q'.1, q'.2.2) else q'

/-- Edge interpolator state of `draw_shaded_triangle`: the running `x` plus
the seven running attribute values of one edge. -/
structure EdgeAcc where
  x : ℚ
  at7 : Interp
  deriving DecidableEq, Inhabited

/-- Advance an edge interpolator by its per-scanline steps. -/
def EdgeAcc.advance (acc st : EdgeAcc) : EdgeAcc :=
  ⟨acc.x + st.x, acc.at7.advance st.at7⟩

/-- Initial edge interpolator: all quantities start at the lower vertex. -/
def accOf (p : Coord) : EdgeAcc :=
  ⟨p.x, interpOf p⟩

/-- Per-scanline steps for the edge from `p` to `q` spanning `n` scanline
increments: each difference divided by `n`. -/
def stepOf (p q : Coord) (n : Nat) : EdgeAcc :=
  ⟨(q.x - p.x) / (n : ℚ),
    ⟨(q.inv_z - p.inv_z) / (n : ℚ), (q.i_div_z - p.i_div_z) / (n : ℚ),
      (q.r_div_z - p.r_div_z) / (n : ℚ), (q.g_div_z - p.g_div_z) / (n : ℚ),
      (q.b_div_z - p.b_div_z) / (n : ℚ), (q.tex_x_div_z - p.tex_x_div_z) / (n : ℚ),
      (q.tex_y_div_z - p.tex_y_div_z) / (n : ℚ)⟩⟩

/-- The `pixel_coord` built from an edge interpolator for scanline `y`. -/
def mkCoord (y : Int) (e : EdgeAcc) : Coord :=
  ⟨e.x, y, e.at7.inv_z, e.at7.i_div_z, e.at7.r_div_z, e.at7.g_div_z, e.at7.b_div_z,
    e.at7.tex_x_div_z, e.at7.tex_y_div_z⟩

/-- Scanline loop of the lower sub-triangle
(`for (int i = p1.y; i <= p2.y; i++)`), with `n` remaining iterations:
each iteration emits one `draw_shaded_row` call whose left endpoint is the
smaller-`x` of the two edge interpolators (`if (x_1_2 <= x_1_3)`), then
advances both interpolators.  Returns the emitted calls `(y, left, right)`
and the final long-edge interpolator. -/
def lower_loop :
    Nat → Int → EdgeAcc → EdgeAcc → EdgeAcc → EdgeAcc →
      List (Int × Coord × Coord) × EdgeAcc
  | 0, _, _, a13, _, _ => ([], a13)
  | n + 1, y, a12, a13, s12, s13 =>
    let call := if a12.x ≤ a13.x then (y, mkCoord y a12, mkCoord y a13)
      else (y, mkCoord y a13, mkCoord y a12)
    let r := lower_loop n (y + 1) (a12.advance s12) (a13.advance s13) s12 s13
    (call :: r.1, r.2)

/-- Scanline loop of the upper sub-triangle
(`for (int i = p2.y; i <= p3.y; i++)`), with `n` remaining iterations: when
`x_2_3 <= x_1_3` the long-edge endpoint is passed as the right endpoint with
`p_1_3.x += 1`; otherwise the endpoints are `(p_1_3, p_2_3)`. -/
def upper_loop :
    Nat → Int → EdgeAcc → EdgeAcc → EdgeAcc → EdgeAcc →
      List (Int × Coord × Coord) × EdgeAcc
  | 0, _, _, a13, _, _ => ([], a13)
  | n + 1, y, a23, a13, s23, s13 =>
    let c13 := mkCoord y a13
    let call := if a23.x ≤ a13.x then (y, mkCoord y a23, { c13 with x := c13.x + 1 })
      else (y, c13, mkCoord y a23)
    let r := upper_loop n (y + 1) (a23.advance s23) (a13.advance s13) s23 s13
    (call :: r.1, r.2)

/-- The sequence of `draw_shaded_row` calls `(y, left, right)` made by
`draw_shaded_triangle` (`Rasteriser.cpp`): sort by `y`; return nothing when
the long edge `p1 → p3` has zero height; otherwise run the lower loop when
`num_steps_1_2 > 0` (its `num_steps_1_2 + 1` iterations) and then the upper
loop when `num_steps_2_3 > 0` (its `num_steps_2_3 + 1` iterations), the upper
loop continuing with the long-edge interpolator left by the lower loop.  The
endpoint coordinates do not depend on the window, so the calls can be listed
before applying them. -/
def row_calls (p1 p2 p3 : Coord) : List (Int × Coord × Coord) :=
  let s := sortCoords p1 p2 p3
  let q1 := s.1
  let q2 := s.2.1
  let q3 := s.2.2
  let n12 := (q2.y - q1.y).natAbs
  let n13 := (q3.y - q1.y).natAbs
  let n23 := (q3.y - q2.y).natAbs
  if n13 = 0 then []
  else
    let s13 := stepOf q1 q3 n13
    let lower := if 0 < n12 then
        lower_loop (n12 + 1) q1.y (accOf q1) (accOf q1) (stepOf q1 q2 n12) s13
      else ([], accOf q1)
    let upper := if 0 < n23 then
        (upper_loop (n23 + 1) q2.y (accOf q2) lower.2 (stepOf q2 q3 n23) s13).1
      else []
    lower.1 ++ upper

/-- Embedding of `draw_shaded_triangle` (`Rasteriser.cpp`): apply the
scanline filler to each emitted row call in order. -/
def draw_shaded_triangle (w : Window) (p1 p2 p3 : Coord) (bmp? : Option Bitmap)
    (bw bh : Int) : Window :=
  (row_calls p1 p2 p3).foldl
    (fun wnd c => (draw_shaded_row wnd c.1 c.2.1 c.2.2 bmp? bw bh).1) w

/-- All fragments attempted by `draw_shaded_triangle`, in order. -/
def tri_frags (p1 p2 p3 : Coord) (bmp? : Option Bitmap) : List Frag :=
  (row_calls p1 p2 p3).flatMap (fun c => row_frags c.1 c.2.1 c.2.2 bmp?)

/-- The `pixel_coord` built by `Renderer::rasterise_triangles` from a
projected vertex: floored position and the divided-by-z companions. -/
def coordOf (p : Point) : Coord :=
  ⟨(⌊p.posX⌋ : Int), ⌊p.posY⌋, p.inv_z, p.i_div_z, p.r_div_z, p.g_div_z, p.b_div_z,
    p.tex_x_div_z, p.tex_y_div_z⟩

/-- Embedding of `Renderer::rasterise_triangles` (`Renderer.cpp`): iterate the
active indices in order, drawing each triangle with `draw_shaded_triangle`.
The C++ call site passes only the window and the three `pixel_coord`s — no
bitmap argument — so every triangle is drawn with no texture (`none`); the
buffer extent is the window's. -/
def rasterise_triangles (w : Window) (tris : List Triangle) (act : List Nat)
    (bw bh : Int) : Window :=
  act.foldl
    (fun wnd idx =>
      let t := tris.getD idx default
      draw_shaded_triangle wnd (coordOf t.p0) (coordOf t.p1) (coordOf t.p2) none bw bh)
    w

/-!
Section 6: claim C3 — buffer accesses of the scanline filler.
-/

/-- Window with cleared buffers: colour black, depth `0` ("behind
everything"). -/
def win0 : Window := ⟨fun _ _ => (0, 0, 0), fun _ _ => 0⟩

/-- A single-pixel scanline endpoint at `x = 5` with `1/z = 1` and
intensity-over-z `1`. -/
def rowP5 : Coord := ⟨5, 10, 1, 1, 0, 0, 0, 0, 0⟩

/-- Claim C3: refuted on the code.  Calling the scanline filler for row
`y = 10` on a 10×10 buffer (valid rows are `0 … 9`) performs a depth-buffer
read at `(5, 10)` before any bounds check, and its bounds test
`y <= buffer_height` accepts `y = 10`, so the pixel write and the depth write
also land at `(5, 10)` — one row past the end of both buffers.  Hence not
every access of the filler satisfies `0 ≤ y < buffer_height`. -/
theorem draw_shaded_row_out_of_buffer_access :
    (draw_shaded_row win0 10 rowP5 rowP5 none 10 10).2 =
      [Access.depthRead 5 10, Access.pixelWrite 5 10, Access.depthWrite 5 10] ∧
    ¬ (∀ acc ∈ (draw_shaded_row win0 10 rowP5 rowP5 none 10 10).2,
        accInBounds 10 10 acc) := by
  have heval : (draw_shaded_row win0 10 rowP5 rowP5 none 10 10).2 =
      [Access.depthRead 5 10, Access.pixelWrite 5 10, Access.depthWrite 5 10] := by
    norm_num [draw_shaded_row, draw_shaded_row_loop, mkFrag, fragColour, fragTest,
      interpOf, row_steps, Interp.advance, applyFrag, writeFrag, q2u8, clampQ, win0,
      rowP5]
  refine ⟨heval, ?_⟩
  rw [heval]
  intro hall
  have h := hall (Access.pixelWrite 5 10) (by simp)
  have : (10 : Int) < 10 := h.2.2.2
  exact absurd this (by norm_num)

/-!
Section 7: claim C5 — the endpoints handed to the scanline filler.
-/

/-- Projection of a row call to its scanline and the two endpoint `x`s. -/
def callX (c : Int × Coord × Coord) : Int × ℚ × ℚ :=
  (c.1, c.2.1.x, c.2.2.x)

theorem lower_loop_proj (s12 s13 : EdgeAcc) :
    ∀ (n : Nat) (y : Int) (a12 a13 : EdgeAcc),
      ((lower_loop n y a12 a13 s12 s13).1.map callX =
        (List.range n).map (fun (k : Nat) =>
          (y + (k : Int), min (a12.x + (k : ℚ) * s12.x) (a13.x + (k : ℚ) * s13.x),
            max (a12.x + (k : ℚ) * s12.x) (a13.x + (k : ℚ) * s13.x)))) ∧
      (lower_loop n y a12 a13 s12 s13).2.x = a13.x + (n : ℚ) * s13.x := by
  intro n
  induction n with
  | zero =>
    intro y a12 a13
    constructor
    · simp [lower_loop]
    · simp [lower_loop]
  | succ n ih =>
    intro y a12 a13
    obtain ⟨ih1, ih2⟩ := ih (y + 1) (a12.advance s12) (a13.advance s13)
    constructor
    · rw [lower_loop]
      simp only [List.map_cons]
      rw [ih1, List.range_succ_eq_map, List.map_cons, List.map_map]
      congr 1
      · simp only [callX, apply_ite, mkCoord, min_def, max_def]
        norm_num
        split_ifs with h
        · intro h2; exact absurd h (not_le.mpr h2)
        · intro h2; exact absurd h2 h
      · refine List.map_congr_left (fun k _ => ?_)
        simp only [Function.comp, EdgeAcc.advance]
        have e0 : y + 1 + (k : Int) = y + ((k + 1 : Nat) : Int) := by push_cast; ring
        have e1 : a12.x + s12.x + (k : ℚ) * s12.x =
            a12.x + ((k + 1 : Nat) : ℚ) * s12.x := by push_cast; ring
        have e2 : a13.x + s13.x + (k : ℚ) * s13.x =
            a13.x + ((k + 1 : Nat) : ℚ) * s13.x := by push_cast; ring
        rw [e0, e1, e2]
    · rw [lower_loop]
      simp only []
      rw [ih2]
      simp only [EdgeAcc.advance]
      push_cast
      ring

theorem upper_loop_proj (s23 s13 : EdgeAcc) :
    ∀ (n : Nat) (y : Int) (a23 a13 : EdgeAcc),
      ((upper_loop n y a23 a13 s23 s13).1.map callX =
        (List.range n).map (fun (k : Nat) =>
          if a23.x + (k : ℚ) * s23.x ≤ a13.x + (k : ℚ) * s13.x then
            (y + (k : Int), a23.x + (k : ℚ) * s23.x, a13.x + (k : ℚ) * s13.x + 1)
          else (y + (k : Int), a13.x + (k : ℚ) * s13.x, a23.x + (k : ℚ) * s23.x))) ∧
      (upper_loop n y a23 a13 s23 s13).2.x = a13.x + (n : ℚ) * s13.x := by
  intro n
  induction n with
  | zero =>
    intro y a23 a13
    constructor
    · simp [upper_loop]
    · simp [upper_loop]
  | succ n ih =>
    intro y a23 a13
    obtain ⟨ih1, ih2⟩ := ih (y + 1) (a23.advance s23) (a13.advance s13)
    constructor
    · rw [upper_loop]
      simp only [List.map_cons]
      rw [ih1, List.range_succ_eq_map, List.map_cons, List.map_map]
      congr 1
      · simp only [callX, apply_ite, mkCoord]
        norm_num
        split_ifs <;> simp
      · refine List.map_congr_left (fun k _ => ?_)
        simp only [Function.comp, EdgeAcc.advance]
        have e0 : y + 1 + (k : Int) = y + ((k + 1 : Nat) : Int) := by push_cast; ring
        have e1 : a23.x + s23.x + (k : ℚ) * s23.x =
            a23.x + ((k + 1 : Nat) : ℚ) * s23.x := by push_cast; ring
        have e2 : a13.x + s13.x + (k : ℚ) * s13.x =
            a13.x + ((k + 1 : Nat) : ℚ) * s13.x := by push_cast; ring
        rw [e0, e1, e2]
    · rw [upper_loop]
      simp only []
      rw [ih2]
      simp only [EdgeAcc.advance]
      push_cast
      ring

/-- The endpoint-`x` schedule that `draw_shaded_triangle` actually follows.
After sorting, for every scanline of the lower sub-triangle the endpoints are
exactly the smaller and the larger of the short-edge and long-edge running
interpolants.  For the upper sub-triangle, the long-edge interpolant continues
from the value the lower loop left it at (`off` extra steps); when the
short-edge value is ≤ the long-edge value, the long-edge endpoint is passed as
the right endpoint with its `x` increased by 1, otherwise the endpoints are
`(long, short)`. -/
def calls_x_spec (p1 p2 p3 : Coord) : List (Int × ℚ × ℚ) :=
  let s := sortCoords p1 p2 p3
  let q1 := s.1
  let q2 := s.2.1
  let q3 := s.2.2
  let n12 := (q2.y - q1.y).natAbs
  let n13 := (q3.y - q1.y).natAbs
  let n23 := (q3.y - q2.y).natAbs
  if n13 = 0 then []
  else
    let s13x := (q3.x - q1.x) / (n13 : ℚ)
    let s12x := (q2.x - q1.x) / (n12 : ℚ)
    let s23x := (q3.x - q2.x) / (n23 : ℚ)
    let lower := if 0 < n12 then
        (List.range (n12 + 1)).map (fun (k : Nat) =>
          (q1.y + (k : Int), min (q1.x + (k : ℚ) * s12x) (q1.x + (k : ℚ) * s13x),
            max (q1.x + (k : ℚ) * s12x) (q1.x + (k : ℚ) * s13x)))
      else []
    let off : Nat := if 0 < n12 then n12 + 1 else 0
    let upper := if 0 < n23 then
        (List.range (n23 + 1)).map (fun (k : Nat) =>
          if q2.x + (k : ℚ) * s23x ≤ q1.x + (off : ℚ) * s13x + (k : ℚ) * s13x then
            (q2.y + (k : Int), q2.x + (k : ℚ) * s23x,
              q1.x + (off : ℚ) * s13x + (k : ℚ) * s13x + 1)
          else (q2.y + (k : Int), q1.x + (off : ℚ) * s13x + (k : ℚ) * s13x,
            q2.x + (k : ℚ) * s23x))
      else []
    lower ++ upper

/-- Claim C5, amended: the scanline/endpoint schedule of
`draw_shaded_triangle` projected to endpoint `x`s equals `calls_x_spec`: the
lower-sub-triangle endpoints are exactly the smaller and larger of the two
running edge interpolants, but in the upper sub-triangle the long-edge
interpolant is `num_steps_1_2 + 1` steps ahead of the lower vertex whenever
the lower loop ran, and when the short edge is left of (or equal to) the long
edge the right endpoint is passed with its `x` increased by 1. -/
theorem draw_shaded_triangle_row_endpoints_spec (p1 p2 p3 : Coord) :
    (row_calls p1 p2 p3).map callX = calls_x_spec p1 p2 p3 := by
  rw [row_calls, calls_x_spec]
  generalize sortCoords p1 p2 p3 = s
  obtain ⟨q1, q2, q3⟩ := s
  simp only []
  by_cases h13 : (q3.y - q1.y).natAbs = 0
  · rw [if_pos h13, if_pos h13]
    rfl
  · rw [if_neg h13, if_neg h13]
    rw [List.map_append]
    congr 1
    · by_cases h12 : 0 < (q2.y - q1.y).natAbs
      · rw [if_pos h12, if_pos h12]
        rw [(lower_loop_proj (stepOf q1 q2 (q2.y - q1.y).natAbs)
          (stepOf q1 q3 (q3.y - q1.y).natAbs) ((q2.y - q1.y).natAbs + 1) q1.y
          (accOf q1) (accOf q1)).1]
        simp only [accOf, stepOf]
      · rw [if_neg h12, if_neg h12]
        rfl
    · by_cases h23 : 0 < (q3.y - q2.y).natAbs
      · rw [if_pos h23, if_pos h23]
        rw [(upper_loop_proj (stepOf q2 q3 (q3.y - q2.y).natAbs)
          (stepOf q1 q3 (q3.y - q1.y).natAbs) ((q3.y - q2.y).natAbs + 1) q2.y
          (accOf q2) _).1]
        refine List.map_congr_left (fun k _ => ?_)
        by_cases h12 : 0 < (q2.y - q1.y).natAbs
        · rw [if_pos h12, if_pos h12]
          have ex : (lower_loop ((q2.y - q1.y).natAbs + 1) q1.y (accOf q1) (accOf q1)
              (stepOf q1 q2 (q2.y - q1.y).natAbs)
              (stepOf q1 q3 (q3.y - q1.y).natAbs)).2.x =
              (accOf q1).x + (((q2.y - q1.y).natAbs + 1 : Nat) : ℚ) *
                (stepOf q1 q3 (q3.y - q1.y).natAbs).x :=
            (lower_loop_proj _ _ _ _ _ _).2
          rw [ex]
          simp only [accOf, stepOf]
        · rw [if_neg h12, if_neg h12]
          simp only [accOf, stepOf]
          norm_num
      · rw [if_neg h23, if_neg h23]
        rfl

/-- Vertex `(0, 0)` of the C5 counterexample triangle. -/
def triA : Coord := ⟨0, 0, 1, 1, 0, 0, 0, 0, 0⟩

/-- Vertex `(0, 2)` of the C5 counterexample triangle. -/
def triB : Coord := ⟨0, 2, 1, 1, 0, 0, 0, 0, 0⟩

/-- Vertex `(2, 4)` of the C5 counterexample triangle. -/
def triC : Coord := ⟨2, 4, 1, 1, 0, 0, 0, 0, 0⟩

/-- Claim C5, counterexample: for the triangle `(0,0), (0,2), (2,4)` the
fourth scanline call (the first row of the upper sub-triangle, `y = 2`) is
passed the right endpoint `x = 5/2`.  At that scanline the active short-edge
interpolant is `0` and the long-edge interpolant is `3/2` as a running value
(`1` as the value of the long edge at `y = 2`), so the right endpoint is not
the larger of the two interpolants under either reading: the code adds 1 to
the long-edge endpoint (`p_1_3.x += 1`), and its running long edge is one
step ahead of the geometric edge.  This refutes the claim that the endpoints
are exactly the smaller and larger interpolant `x`s with no other
adjustment. -/
theorem draw_shaded_triangle_endpoint_counterexample :
    (row_calls triA triB triC).map callX =
      [(0, 0, 0), (1, 0, 1/2), (2, 0, 1), (2, 0, 5/2), (3, 1, 3), (4, 2, 7/2)] ∧
    (5 : ℚ)/2 ≠ max 0 (3/2) ∧ (5 : ℚ)/2 ≠ max 0 1 := by
  refine ⟨?_, by norm_num, by norm_num⟩
  norm_num [row_calls, sortCoords, lower_loop, upper_loop, stepOf, accOf, mkCoord,
    interpOf, EdgeAcc.advance, Interp.advance, callX, triA, triB, triC]

/-!
Section 8: claim C4 — permutation invariance of the rasterise stage.
-/

theorem writeFrag_depth_same (w : Window) (x y : Int) (z : ℚ) (c : Nat × Nat × Nat) :
    (writeFrag w ⟨x, y, z, c⟩).depth x y = z := by
  simp [writeFrag]

theorem writeFrag_depth_other (w : Window) (f : Frag) (u v : Int)
    (h : ¬(u = f.x ∧ v = f.y)) : (writeFrag w f).depth u v = w.depth u v := by
  simp [writeFrag, h]

theorem writeFrag_writeFrag_same (w : Window) (x y : Int) (fz gz : ℚ)
    (fc gc : Nat × Nat × Nat) :
    writeFrag (writeFrag w ⟨x, y, fz, fc⟩) ⟨x, y, gz, gc⟩ =
      writeFrag w ⟨x, y, gz, gc⟩ := by
  refine Window.ext (funext fun u => funext fun v => ?_) (funext fun u => funext fun v => ?_) <;>
    · simp only [writeFrag]
      by_cases huv : u = x ∧ v = y <;> simp [huv]

theorem writeFrag_comm_other (w : Window) (f g : Frag)
    (h : ¬(f.x = g.x ∧ f.y = g.y)) :
    writeFrag (writeFrag w f) g = writeFrag (writeFrag w g) f := by
  have hgf : ∀ u v : Int, (u = g.x ∧ v = g.y) → ¬(u = f.x ∧ v = f.y) := by
    rintro u v ⟨rfl, rfl⟩ ⟨e1, e2⟩
    exact h ⟨e1.symm, e2.symm⟩
  refine Window.ext (funext fun u => funext fun v => ?_) (funext fun u => funext fun v => ?_) <;>
    · simp only [writeFrag]
      by_cases hg : u = g.x ∧ v = g.y
      · simp [hg, hgf g.x g.y ⟨rfl, rfl⟩]
      · simp [hg]

theorem fragTest_writeFrag_other (bw bh : Int) (w : Window) (f g : Frag)
    (h : ¬(g.x = f.x ∧ g.y = f.y)) :
    fragTest bw bh (writeFrag w f) g ↔ fragTest bw bh w g := by
  unfold fragTest
  rw [writeFrag_depth_other w f g.x g.y h]

/-- Commutation of two passing-or-failing fragment applications at the same
pixel, ordered case `fz < gz`: the depth test is strict, so whichever order
is used, the fragment with the larger `1/z` ends up in the buffers (or none
does). -/
theorem applyFrag_comm_same_lt (bw bh : Int) (x y : Int) (fz gz : ℚ)
    (fc gc : Nat × Nat × Nat) (hlt : fz < gz) (w : Window) :
    applyFrag bw bh (applyFrag bw bh w ⟨x, y, fz, fc⟩) ⟨x, y, gz, gc⟩ =
      applyFrag bw bh (applyFrag bw bh w ⟨x, y, gz, gc⟩) ⟨x, y, fz, fc⟩ := by
  by_cases hb : 0 ≤ x ∧ x < bw ∧ 0 ≤ y ∧ y ≤ bh
  · by_cases t2 : w.depth x y < gz
    · have eg : applyFrag bw bh w ⟨x, y, gz, gc⟩ = writeFrag w ⟨x, y, gz, gc⟩ := by
        rw [applyFrag, if_pos (show fragTest bw bh w ⟨x, y, gz, gc⟩ from ⟨t2, hb⟩)]
      have ef2 : applyFrag bw bh (writeFrag w ⟨x, y, gz, gc⟩) ⟨x, y, fz, fc⟩ =
          writeFrag w ⟨x, y, gz, gc⟩ := by
        rw [applyFrag, if_neg (show ¬ fragTest bw bh (writeFrag w ⟨x, y, gz, gc⟩)
          ⟨x, y, fz, fc⟩ from fun hc => by
            have := hc.1
            rw [writeFrag_depth_same] at this
            exact absurd this (by linarith))]
      by_cases t1 : w.depth x y < fz
      · have ef : applyFrag bw bh w ⟨x, y, fz, fc⟩ = writeFrag w ⟨x, y, fz, fc⟩ := by
          rw [applyFrag, if_pos (show fragTest bw bh w ⟨x, y, fz, fc⟩ from ⟨t1, hb⟩)]
        have eg2 : applyFrag bw bh (writeFrag w ⟨x, y, fz, fc⟩) ⟨x, y, gz, gc⟩ =
            writeFrag (writeFrag w ⟨x, y, fz, fc⟩) ⟨x, y, gz, gc⟩ := by
          rw [applyFrag, if_pos (show fragTest bw bh (writeFrag w ⟨x, y, fz, fc⟩)
            ⟨x, y, gz, gc⟩ from ⟨by rw [writeFrag_depth_same]; exact hlt, hb⟩)]
        rw [ef, eg, eg2, ef2]
        exact writeFrag_writeFrag_same w x y fz gz fc gc
      · have ef : applyFrag bw bh w ⟨x, y, fz, fc⟩ = w := by
          rw [applyFrag, if_neg (fun hc : fragTest bw bh w ⟨x, y, fz, fc⟩ => t1 hc.1)]
        rw [ef, eg, ef2]
    · have t1 : ¬ w.depth x y < fz := fun hc => t2 (lt_trans hc hlt)
      have ef : applyFrag bw bh w ⟨x, y, fz, fc⟩ = w := by
        rw [applyFrag, if_neg (fun hc : fragTest bw bh w ⟨x, y, fz, fc⟩ => t1 hc.1)]
      have eg : applyFrag bw bh w ⟨x, y, gz, gc⟩ = w := by
        rw [applyFrag, if_neg (fun hc : fragTest bw bh w ⟨x, y, gz, gc⟩ => t2 hc.1)]
      rw [ef, eg, ef]
  · have hf : ∀ (w' : Window) (z : ℚ) (c : Nat × Nat × Nat),
        applyFrag bw bh w' ⟨x, y, z, c⟩ = w' := by
      intro w' z c
      rw [applyFrag, if_neg (fun hc : fragTest bw bh w' ⟨x, y, z, c⟩ => hb hc.2)]
    rw [hf, hf, hf, hf]

/-- Commutation of two fragment applications that either target different
pixels or carry different `1/z` values. -/
theorem applyFrag_comm (bw bh : Int) (f g : Frag)
    (h : f.x = g.x ∧ f.y = g.y → f.inv_z ≠ g.inv_z) (w : Window) :
    applyFrag bw bh (applyFrag bw bh w f) g =
      applyFrag bw bh (applyFrag bw bh w g) f := by
  by_cases hp : f.x = g.x ∧ f.y = g.y
  · obtain ⟨fx, fy, fz, fc⟩ := f
    obtain ⟨gx, gy, gz, gc⟩ := g
    obtain ⟨e1, e2⟩ := hp
    simp only [] at e1 e2
    subst e1
    subst e2
    have hz : fz ≠ gz := by
      have := h ⟨rfl, rfl⟩
      simpa using this
    rcases lt_trichotomy fz gz with hlt | heq | hgt
    · exact applyFrag_comm_same_lt bw bh fx fy fz gz fc gc hlt w
    · exact absurd heq hz
    · exact (applyFrag_comm_same_lt bw bh fx fy gz fz gc fc hgt w).symm
  · have hgf : ¬(g.x = f.x ∧ g.y = f.y) := fun hc => hp ⟨hc.1.symm, hc.2.symm⟩
    by_cases tf : fragTest bw bh w f <;> by_cases tg : fragTest bw bh w g
    · have ef : applyFrag bw bh w f = writeFrag w f := by rw [applyFrag, if_pos tf]
      have eg : applyFrag bw bh w g = writeFrag w g := by rw [applyFrag, if_pos tg]
      have eg2 : applyFrag bw bh (writeFrag w f) g = writeFrag (writeFrag w f) g := by
        rw [applyFrag, if_pos ((fragTest_writeFrag_other bw bh w f g hgf).mpr tg)]
      have ef2 : applyFrag bw bh (writeFrag w g) f = writeFrag (writeFrag w g) f := by
        rw [applyFrag, if_pos ((fragTest_writeFrag_other bw bh w g f hp).mpr tf)]
      rw [ef, eg, eg2, ef2]
      exact writeFrag_comm_other w f g hp
    · have ef : applyFrag bw bh w f = writeFrag w f := by rw [applyFrag, if_pos tf]
      have eg : applyFrag bw bh w g = w := by rw [applyFrag, if_neg tg]
      have eg2 : applyFrag bw bh (writeFrag w f) g = writeFrag w f := by
        rw [applyFrag,
          if_neg (fun hc => tg ((fragTest_writeFrag_other bw bh w f g hgf).mp hc))]
      rw [ef, eg, eg2, ef]
    · have ef : applyFrag bw bh w f = w := by rw [applyFrag, if_neg tf]
      have eg : applyFrag bw bh w g = writeFrag w g := by rw [applyFrag, if_pos tg]
      have ef2 : applyFrag bw bh (writeFrag w g) f = writeFrag w g := by
        rw [applyFrag,
          if_neg (fun hc => tf ((fragTest_writeFrag_other bw bh w g f hp).mp hc))]
      rw [ef, eg, ef2]
    · have ef : applyFrag bw bh w f = w := by rw [applyFrag, if_neg tf]
      have eg : applyFrag bw bh w g = w := by rw [applyFrag, if_neg tg]
      rw [ef, eg, ef]

/-- Pointwise commutation condition between two fragments. -/
def fragComm (bw bh : Int) (f g : Frag) : Prop :=
  ∀ w : Window, applyFrag bw bh (applyFrag bw bh w f) g =
    applyFrag bw bh (applyFrag bw bh w g) f

theorem applyFrags_past (bw bh : Int) (x : Frag) :
    ∀ (B : List Frag), (∀ g ∈ B, fragComm bw bh x g) → ∀ w : Window,
      applyFrags bw bh (applyFrag bw bh w x) B =
        applyFrag bw bh (applyFrags bw bh w B) x := by
  intro B
  induction B with
  | nil => intro _ w; rfl
  | cons g B ih =>
    intro hc w
    simp only [applyFrags, List.foldl_cons] at *
    rw [hc g (List.mem_cons_self g B) w]
    exact ih (fun g' hg' => hc g' (List.mem_cons_of_mem g hg')) (applyFrag bw bh w g)

theorem applyFrags_swap (bw bh : Int) :
    ∀ (A B : List Frag), (∀ f ∈ A, ∀ g ∈ B, fragComm bw bh f g) → ∀ w : Window,
      applyFrags bw bh (applyFrags bw bh w A) B =
        applyFrags bw bh (applyFrags bw bh w B) A := by
  intro A
  induction A with
  | nil => intro B _ w; rfl
  | cons f A ih =>
    intro B hc w
    simp only [applyFrags, List.foldl_cons] at *
    rw [ih B (fun f' hf' g hg => hc f' (List.mem_cons_of_mem f hf') g hg) (applyFrag bw bh w f)]
    rw [show List.foldl (applyFrag bw bh) (applyFrag bw bh w f) B =
      applyFrags bw bh (applyFrag bw bh w f) B from rfl]
    rw [applyFrags_past bw bh f B (fun g hg => hc f (List.mem_cons_self f A) g hg) w]
    rfl

/-- Folding whole fragment blocks over the window. -/
def blockApply (bw bh : Int) (w : Window) (fr : List Frag) : Window :=
  applyFrags bw bh w fr

theorem foldl_blocks_perm (bw bh : Int) :
    ∀ {bs1 bs2 : List (List Frag)}, bs1.Perm bs2 →
      (∀ A ∈ bs1, ∀ B ∈ bs1, A ≠ B → ∀ f ∈ A, ∀ g ∈ B, fragComm bw bh f g) →
      ∀ w : Window, bs1.foldl (blockApply bw bh) w = bs2.foldl (blockApply bw bh) w := by
  intro bs1 bs2 hperm
  induction hperm with
  | nil => intro _ w; rfl
  | cons X hp ih =>
    intro hc w
    simp only [List.foldl_cons]
    exact ih (fun A hA B hB hne => hc A (List.mem_cons_of_mem X hA)
      B (List.mem_cons_of_mem X hB) hne) (blockApply bw bh w X)
  | swap X Y l =>
    intro hc w
    simp only [List.foldl_cons]
    by_cases hxy : X = Y
    · subst hxy; rfl
    · have hcomm := hc X (by simp) Y (by simp) hxy
      have : blockApply bw bh (blockApply bw bh w Y) X =
          blockApply bw bh (blockApply bw bh w X) Y := by
        exact (applyFrags_swap bw bh X Y (fun f hf g hg => hcomm f hf g hg) w).symm
      rw [this]
  | trans h1 h2 ih1 ih2 =>
    intro hc w
    rw [ih1 hc w]
    refine ih2 (fun A hA B hB hne => ?_) w
    exact hc A (h1.mem_iff.mpr hA) B (h1.mem_iff.mpr hB) hne

theorem draw_shaded_triangle_frags (w : Window) (p1 p2 p3 : Coord)
    (bmp? : Option Bitmap) (bw bh : Int) :
    draw_shaded_triangle w p1 p2 p3 bmp? bw bh =
      applyFrags bw bh w (tri_frags p1 p2 p3 bmp?) := by
  rw [draw_shaded_triangle, tri_frags]
  generalize row_calls p1 p2 p3 = calls
  induction calls generalizing w with
  | nil => rfl
  | cons c cs ih =>
    simp only [List.foldl_cons, List.flatMap_cons]
    rw [draw_shaded_row_window]
    rw [show applyFrags bw bh w (row_frags c.1 c.2.1 c.2.2 bmp? ++
      cs.flatMap fun c => row_frags c.1 c.2.1 c.2.2 bmp?) =
      List.foldl (applyFrag bw bh)
        (List.foldl (applyFrag bw bh) w (row_frags c.1 c.2.1 c.2.2 bmp?))
        (cs.flatMap fun c => row_frags c.1 c.2.1 c.2.2 bmp?) from List.foldl_append ..]
    exact ih _

/-- The fragment block contributed by the active index `idx`: the fragments
of `draw_shaded_triangle` on the floored vertices of `triangles[idx]`, with no
bitmap (the renderer's call passes none). -/
def tri_frags_of (tris : List Triangle) (idx : Nat) : List Frag :=
  let t := tris.getD idx default
  tri_frags (coordOf t.p0) (coordOf t.p1) (coordOf t.p2) none

theorem rasterise_triangles_blocks (tris : List Triangle) (bw bh : Int) :
    ∀ (act : List Nat) (w : Window),
      rasterise_triangles w tris act bw bh =
        (act.map (tri_frags_of tris)).foldl (blockApply bw bh) w := by
  intro act
  induction act with
  | nil => intro w; rfl
  | cons idx rest ih =>
    intro w
    simp only [rasterise_triangles, List.foldl_cons, List.map_cons] at *
    rw [draw_shaded_triangle_frags]
    exact ih _

/-- Claim C4, amended: the rasterise stage is invariant under any permutation
of the active-index list provided any two fragments coming from active
triangles with different fragment blocks and targeting the same pixel carry
different `1/z` values.  (With equal `1/z` at a pixel the strict depth test
lets the earlier triangle win, so the unrestricted claim fails; see the
counterexample.) -/
theorem rasterise_perm_invariant_of_distinct_depths (w : Window)
    (tris : List Triangle) (act act' : List Nat) (bw bh : Int)
    (hperm : act.Perm act')
    (hdep : ∀ i ∈ act, ∀ j ∈ act, tri_frags_of tris i ≠ tri_frags_of tris j →
      ∀ f ∈ tri_frags_of tris i, ∀ g ∈ tri_frags_of tris j,
        f.x = g.x ∧ f.y = g.y → f.inv_z ≠ g.inv_z) :
    rasterise_triangles w tris act bw bh = rasterise_triangles w tris act' bw bh := by
  rw [rasterise_triangles_blocks, rasterise_triangles_blocks]
  refine foldl_blocks_perm bw bh (hperm.map (tri_frags_of tris)) ?_ w
  intro A hA B hB hne f hf g hg
  obtain ⟨i, hi, rfl⟩ := List.mem_map.mp hA
  obtain ⟨j, hj, rfl⟩ := List.mem_map.mp hB
  exact fun w' => applyFrag_comm bw bh f g (hdep i hi j hj hne f hf g hg) w'

/-- Vertex with position `(px, py)` and constant divided-by-z attributes. -/
def mkVert (px py iz idz rdz bdz : ℚ) : Point :=
  ⟨px, py, 0, 0, 0, 0, 0, 0, 0, 0, iz, idz, rdz, 0, bdz, 0, 0⟩

/-- Red triangle covering pixels (0,0), (1,0), (0,1), (1,1) with `1/z = 1`. -/
def triRed : Triangle :=
  ⟨mkVert 0 0 1 1 255 0, mkVert 1 0 1 1 255 0, mkVert 0 1 1 1 255 0⟩

/-- Blue triangle on the same pixels with the same `1/z = 1`. -/
def triBlue1 : Triangle :=
  ⟨mkVert 0 0 1 1 0 255, mkVert 1 0 1 1 0 255, mkVert 0 1 1 1 0 255⟩

/-- Blue triangle on the same pixels with `1/z = 2` (in front of `triRed`). -/
def triBlue2 : Triangle :=
  ⟨mkVert 0 0 2 2 0 510, mkVert 1 0 2 2 0 510, mkVert 0 1 2 2 0 510⟩

/-- Claim C4, counterexample: two coincident triangles with equal `1/z = 1`
but different colours.  `[1, 0]` is a permutation of `[0, 1]`, yet running
the rasterise stage with the two orders leaves different colours at pixel
`(0, 0)`: the strict depth test (`inv_z > depth`) lets whichever triangle is
processed first win.  The claimed two-run equality under permutation of the
active list is therefore false. -/
theorem rasterise_perm_counterexample :
    [0, 1].Perm [1, 0] ∧
    (rasterise_triangles win0 [triRed, triBlue1] [0, 1] 10 10).fb 0 0 = (255, 0, 0) ∧
    (rasterise_triangles win0 [triRed, triBlue1] [1, 0] 10 10).fb 0 0 = (0, 0, 255) ∧
    ((255, 0, 0) : Nat × Nat × Nat) ≠ (0, 0, 255) := by
  refine ⟨List.Perm.swap 1 0 [], ?_, ?_, by decide⟩ <;>
    · norm_num [rasterise_triangles, draw_shaded_triangle, draw_shaded_row,
        draw_shaded_row_loop, row_calls, sortCoords, lower_loop, upper_loop, stepOf,
        accOf, mkCoord, interpOf, EdgeAcc.advance, Interp.advance, coordOf, mkFrag,
        fragColour, fragTest, applyFrag, writeFrag, q2u8, clampQ, row_steps, win0,
        triRed, triBlue1, mkVert]
      decide

/-- Claim C4, witness: the amended permutation-invariance theorem applied to
two coincident triangles with distinct depths (`1/z = 1` and `1/z = 2`). -/
theorem rasterise_perm_invariant_witness :
    rasterise_triangles win0 [triRed, triBlue2] [0, 1] 10 10 =
      rasterise_triangles win0 [triRed, triBlue2] [1, 0] 10 10 := by
  refine rasterise_perm_invariant_of_distinct_depths win0 [triRed, triBlue2]
    [0, 1] [1, 0] 10 10 (List.Perm.swap 1 0 []) ?_
  have hA : tri_frags_of [triRed, triBlue2] 0 =
      [⟨0, 0, 1, (255, 0, 0)⟩, ⟨1, 0, 1, (255, 0, 0)⟩,
        ⟨0, 1, 1, (255, 0, 0)⟩, ⟨1, 1, 1, (255, 0, 0)⟩] := by
    norm_num [tri_frags_of, tri_frags, row_calls, sortCoords, lower_loop, upper_loop,
      stepOf, accOf, mkCoord, interpOf, EdgeAcc.advance, Interp.advance, coordOf,
      row_frags, row_frags_loop, row_steps, mkFrag, fragColour, q2u8, clampQ,
      triRed, triBlue2, mkVert]
    decide
  have hB : tri_frags_of [triRed, triBlue2] 1 =
      [⟨0, 0, 2, (0, 0, 255)⟩, ⟨1, 0, 2, (0, 0, 255)⟩,
        ⟨0, 1, 2, (0, 0, 255)⟩, ⟨1, 1, 2, (0, 0, 255)⟩] := by
    norm_num [tri_frags_of, tri_frags, row_calls, sortCoords, lower_loop, upper_loop,
      stepOf, accOf, mkCoord, interpOf, EdgeAcc.advance, Interp.advance, coordOf,
      row_frags, row_frags_loop, row_steps, mkFrag, fragColour, q2u8, clampQ,
      triRed, triBlue2, mkVert]
    decide
  intro i hi j hj hne f hf g hg hpix
  simp only [List.mem_cons, List.not_mem_nil, or_false] at hi hj
  rcases hi with rfl | rfl <;> rcases hj with rfl | rfl
  · exact absurd rfl hne
  · rw [hA] at hf
    rw [hB] at hg
    simp only [List.mem_cons, List.not_mem_nil, or_false] at hf hg
    rcases hf with rfl | rfl | rfl | rfl <;> rcases hg with rfl | rfl | rfl | rfl <;>
      norm_num
  · rw [hB] at hf
    rw [hA] at hg
    simp only [List.mem_cons, List.not_mem_nil, or_false] at hf hg
    rcases hf with rfl | rfl | rfl | rfl <;> rcases hg with rfl | rfl | rfl | rfl <;>
      norm_num
  · exact absurd rfl hne

/-!
Section 9: claim C6 — texture handling of the rasterise stage.
-/

/-- The `Graphics::Triangle` of the `load_resources.cpp` revision: three
points plus the optional texture bitmap pointer (`nullptr` ⇒ untextured). -/
structure TexTriangle where
  tri : Triangle
  bitmap_ptr : Option Bitmap
  deriving Inhabited

/-- Embedding of `Graphics::Mesh`: the loaded triangles. -/
structure Mesh where
  triangles : List TexTriangle
  deriving Inhabited

/-- Embedding of `Resources::attach_texture`: set the bitmap pointer of every
triangle of the mesh to the given bitmap. -/
def attach_texture (mesh : Mesh) (bmp : Bitmap) : Mesh :=
  ⟨mesh.triangles.map (fun t => { t with bitmap_ptr := some bmp })⟩

/-- A 1×1 black texture (`RGBAPixel` fields in declaration order
`a, b, g, r`). -/
def blackTex : Bitmap := ⟨1, 1, [⟨255, 0, 0, 0⟩]⟩

/-- White vertex at `(px, py)` with `1/z = 1`. -/
def mkVertW (px py : ℚ) : Point :=
  ⟨px, py, 0, 0, 0, 0, 0, 0, 0, 0, 1, 1, 255, 255, 255, 0, 0⟩

/-- White triangle covering pixels (0,0), (1,0), (0,1), (1,1). -/
def triWhite : Triangle := ⟨mkVertW 0 0, mkVertW 1 0, mkVertW 0 1⟩

/-- Claim C6: refuted on the code.  `attach_texture` does set every mesh
triangle's bitmap pointer, but `Renderer::rasterise_triangles` calls the
shaded-triangle draw with only the window and the three vertices — no bitmap
argument — so the pixels come out with the untextured colour (white), whereas
the draw invoked with the mesh's bitmap pointer (as the claim describes)
would sample the attached black texture and write black. -/
theorem rasterise_ignores_attached_texture :
    ((attach_texture ⟨[⟨triWhite, none⟩]⟩ blackTex).triangles.getD 0
        default).bitmap_ptr = some blackTex ∧
    (rasterise_triangles win0 [triWhite] [0] 10 10).fb 0 0 = (255, 255, 255) ∧
    (draw_shaded_triangle win0 (coordOf triWhite.p0) (coordOf triWhite.p1)
        (coordOf triWhite.p2) (some blackTex) 10 10).fb 0 0 = (0, 0, 0) ∧
    ((255, 255, 255) : Nat × Nat × Nat) ≠ (0, 0, 0) := by
  refine ⟨rfl, ?_, ?_, by decide⟩ <;>
    · norm_num [rasterise_triangles, draw_shaded_triangle, draw_shaded_row,
        draw_shaded_row_loop, row_calls, sortCoords, lower_loop, upper_loop, stepOf,
        accOf, mkCoord, interpOf, EdgeAcc.advance, Interp.advance, coordOf, mkFrag,
        fragColour, fragTest, applyFrag, writeFrag, q2u8, clampQ, row_steps,
        sampleTexel, roundQ, win0, triWhite, mkVertW, blackTex]
      try decide

/-!
Section 10: the resource loaders (`Resources/load_resources.cpp`).

Line streams are embedded as lists of characters; an `operator>>` extraction
that fails is `none`.
-/

/-- Whitespace in the `std::isspace` sense (space, tab, newline, vertical
tab, form feed, carriage return). -/
def wsChar (c : Char) : Bool :=
  c.toNat = 32 || c.toNat = 9 || c.toNat = 10 || c.toNat = 11 || c.toNat = 12 ||
    c.toNat = 13

/-- Effect of `stream >> std::ws`: consume leading whitespace. -/
def skip_ws (s : List Char) : List Char :=
  s.dropWhile wsChar

/-- Digit characters. -/
def digitChar (c : Char) : Bool :=
  48 ≤ c.toNat && c.toNat ≤ 57

/-- Value of a digit string. -/
def digitsToNat (ds : List Char) : Nat :=
  ds.foldl (fun acc c => 10 * acc + (c.toNat - 48)) 0

/-- Extraction `stream >> (int&)`: skip whitespace, an optional sign, then at
least one digit; fails (sets `failbit`) when no digit follows. -/
def parse_int (s : List Char) : Option (Int × List Char) :=
  let s1 := skip_ws s
  let core := fun (sgn : Int) (t : List Char) =>
    let ds := t.takeWhile digitChar
    if ds.isEmpty then none
    else some (sgn * (digitsToNat ds : Int), t.dropWhile digitChar)
  match s1 with
  | '-' :: t => core (-1) t
  | '+' :: t => core 1 t
  | _ => core 1 s1

/-- Extraction `stream >> (double&)`: skip whitespace, an optional sign, a
mantissa with at least one digit (integer part, optional fraction), and an
optional exponent.  The numeric value is exact rational. -/
def parse_double (s : List Char) : Option (ℚ × List Char) :=
  let s1 := skip_ws s
  let core := fun (sgn : ℚ) (t : List Char) =>
    let ds := t.takeWhile digitChar
    let t1 := t.dropWhile digitChar
    let frac : List Char × List Char :=
      match t1 with
      | '.' :: t2 => (t2.takeWhile digitChar, t2.dropWhile digitChar)
      | _ => ([], t1)
    if ds.isEmpty && frac.1.isEmpty then none
    else
      let mant : ℚ := (digitsToNat ds : ℚ) +
        (digitsToNat frac.1 : ℚ) / ((10 : ℚ) ^ frac.1.length)
      let t3 := if ds.isEmpty && frac.1 = [] then t1 else
        (match t1 with
          | '.' :: t2 => t2.dropWhile digitChar
          | _ => t1)
      let expPart : Option (Int × List Char) :=
        match t3 with
        | 'e' :: t4 => parse_int ('+' :: t4)
        | 'E' :: t4 => parse_int ('+' :: t4)
        | _ => none
      match expPart with
      | some (e, t5) => some (sgn * mant * (10 : ℚ) ^ e, t5)
      | none => some (sgn * mant, t3)
  match s1 with
  | '-' :: t => core (-1) t
  | '+' :: t => core 1 t
  | _ => core 1 s1

/-- Extraction `stream >> (std::string&)`: skip whitespace and read the next
whitespace-delimited token; fails when the stream is exhausted. -/
def read_token (s : List Char) : Option (List Char × List Char) :=
  let s1 := skip_ws s
  let tok := s1.takeWhile (fun c => !wsChar c)
  if tok.isEmpty then none else some (tok, s1.dropWhile (fun c => !wsChar c))

/-- The formats of one face-vertex triplet (`load_resources.cpp`). -/
inductive ObjTripletFormat where
  | P
  | PT
  | PN
  | PTN
  | ERROR
  deriving DecidableEq

/-- Embedding of `parse_face_point_triplet` (`load_resources.cpp`): read the
position index; if the stream ends or the next significant character is not a
slash, the triplet is of form `P` (the character is ungot).  After one slash,
a second slash introduces `P//N`; otherwise the texture index is read,
followed by an optional `/N`.  Any failed integer extraction and a dangling
slash at end of stream give `ERROR`. -/
def parse_face_point_triplet (s : List Char) :
    ObjTripletFormat × (Int × Int × Int) × List Char :=
  match parse_int s with
  | none => (.ERROR, (0, 0, 0), s)
  | some (p, s1) =>
    let s2 := skip_ws s1
    match s2 with
    | [] => (.P, (p, 0, 0), s2)
    | c :: rest =>
      if c ≠ '/' then (.P, (p, 0, 0), s2)
      else
        let s3 := skip_ws rest
        match s3 with
        | [] => (.ERROR, (p, 0, 0), s3)
        | c2 :: rest2 =>
          if c2 = '/' then
            match parse_int (skip_ws rest2) with
            | none => (.ERROR, (p, 0, 0), skip_ws rest2)
            | some (nn, s5) => (.PN, (p, 0, nn), s5)
          else
            match parse_int s3 with
            | none => (.ERROR, (p, 0, 0), s3)
            | some (t, s5) =>
              let s6 := skip_ws s5
              match s6 with
              | [] => (.PT, (p, t, 0), s6)
              | c3 :: rest3 =>
                if c3 ≠ '/' then (.PT, (p, t, 0), s6)
                else
                  match parse_int (skip_ws rest3) with
                  | none => (.ERROR, (p, t, 0), skip_ws rest3)
                  | some (nn, s8) => (.PTN, (p, t, nn), s8)

/-- Loader state while scanning the OBJ lines: the `v`, `vt` and `vn` arrays
and the triangles built so far. -/
structure ObjState where
  vertices : List (ℚ × ℚ × ℚ × ℚ)
  texture_coords : List (ℚ × ℚ × ℚ × ℚ)
  normals : List (ℚ × ℚ × ℚ × ℚ)
  triangles : List TexTriangle

/-- Build one face point: position from the 1-based vertex index, colour
`(255, 255, 255)`, texture coordinates filled in for the `PT`/`PTN` forms.
C++ indexes the arrays without a bounds check (undefined behaviour when out
of range); the embedding totalises that access with a zero default. -/
def mk_face_point (st : ObjState) (form : ObjTripletFormat)
    (pos_idx tex_idx : Int) : Point :=
  let pos := st.vertices.getD (pos_idx - 1).toNat (0, 0, 0, 0)
  let tex : ℚ × ℚ :=
    if form = .PT ∨ form = .PTN then
      let tv := st.texture_coords.getD (tex_idx - 1).toNat (0, 0, 0, 0)
      (tv.1, tv.2.1)
    else (0, 0)
  ⟨pos.1, pos.2.1, pos.2.2.1, pos.2.2.2, 0, 255, 255, 255, tex.1, tex.2,
    0, 0, 0, 0, 0, 0, 0⟩

/-- Processing of one OBJ line (`load_mesh_from_obj` loop body,
`load_resources.cpp`): `v`/`vt`/`vn` append to the arrays (a failed number
extraction aborts), `f` reads three triplets which must parse and agree in
form (otherwise the load is aborted), any other mnemonic is skipped.
`none` models `failed = true; break`. -/
def process_obj_line (st : ObjState) (line : List Char) : Option ObjState :=
  match read_token line with
  | none => some st
  | some (mn, rest) =>
    if mn = ['v'] then
      match parse_double rest with
      | none => none
      | some (x, r1) =>
        match parse_double r1 with
        | none => none
        | some (y, r2) =>
          match parse_double r2 with
          | none => none
          | some (z, _) => some { st with vertices := st.vertices ++ [(x, y, z, 1)] }
    else if mn = ['v', 't'] then
      match parse_double rest with
      | none => none
      | some (x, r1) =>
        match parse_double r1 with
        | none => none
        | some (y, _) =>
          some { st with texture_coords := st.texture_coords ++ [(x, y, 1, 1)] }
    else if mn = ['v', 'n'] then
      match parse_double rest with
      | none => none
      | some (x, r1) =>
        match parse_double r1 with
        | none => none
        | some (y, r2) =>
          match parse_double r2 with
          | none => none
          | some (z, _) => some { st with normals := st.normals ++ [(x, y, z, 1)] }
    else if mn = ['f'] then
      let r1 := parse_face_point_triplet rest
      if r1.1 = .ERROR then none
      else
        let r2 := parse_face_point_triplet r1.2.2
        if r2.1 = .ERROR then none
        else
          let r3 := parse_face_point_triplet r2.2.2
          if r3.1 = .ERROR then none
          else if ¬(r1.1 = r2.1 ∧ r2.1 = r3.1) then none
          else
            let point_1 := mk_face_point st r1.1 r1.2.1.1 r1.2.1.2.1
            let point_2 := mk_face_point st r2.1 r2.2.1.1 r2.2.1.2.1
            let point_3 := mk_face_point st r3.1 r3.2.1.1 r3.2.1.2.1
            some { st with triangles :=
              st.triangles ++ [⟨⟨point_1, point_2, point_3⟩, none⟩] }
    else some st

/-- The line loop of `load_mesh_from_obj`: process each line in order; a
`none` (the C++ `failed` flag) aborts and the whole load returns null. -/
def process_obj_lines (st : ObjState) : List (List Char) → Option ObjState
  | [] => some st
  | l :: ls =>
    match process_obj_line st l with
    | none => none
    | some st' => process_obj_lines st' ls

/-- Embedding of `Resources::load_mesh_from_obj` (`load_resources.cpp`): the
input is `none` when the file cannot be opened (the function then returns
null), otherwise the list of its lines; on success the mesh holds the
accumulated triangles. -/
def load_mesh_from_obj : Option (List (List Char)) → Option Mesh
  | none => none
  | some lines =>
    (process_obj_lines ⟨[], [], [], []⟩ lines).map (fun st => ⟨st.triangles⟩)

/-- A face line is malformed when one of its three triplets fails to parse or
the three triplets disagree in form.  This depends only on the line text. -/
def face_line_fails (line : List Char) : Bool :=
  match read_token line with
  | none => false
  | some (mn, rest) =>
    mn = ['f'] &&
      (let r1 := parse_face_point_triplet rest
       let r2 := parse_face_point_triplet r1.2.2
       let r3 := parse_face_point_triplet r2.2.2
       r1.1 = ObjTripletFormat.ERROR || r2.1 = ObjTripletFormat.ERROR ||
         r3.1 = ObjTripletFormat.ERROR || !(r1.1 = r2.1 ∧ r2.1 = r3.1 : Bool))


theorem process_obj_line_fails (line : List Char) (st : ObjState)
    (h : face_line_fails line = true) : process_obj_line st line = none := by
  unfold face_line_fails at h
  unfold process_obj_line
  cases htok : read_token line with
  | none => rw [htok] at h; simp at h
  | some mr =>
    rw [htok] at h
    obtain ⟨mn, rest⟩ := mr
    simp only [Bool.and_eq_true, decide_eq_true_eq, Bool.or_eq_true,
      Bool.not_eq_true', decide_eq_false_iff_not] at h
    obtain ⟨hmn, hbad⟩ := h
    subst hmn
    simp only [if_neg (by decide : ¬(['f'] = ['v'])),
      if_neg (by decide : ¬(['f'] = ['v', 't'])),
      if_neg (by decide : ¬(['f'] = ['v', 'n'])), if_pos rfl]
    by_cases e1 : (parse_face_point_triplet rest).1 = ObjTripletFormat.ERROR
    · rw [if_pos e1]
      simp
    · rw [if_neg e1]
      by_cases e2 : (parse_face_point_triplet
          (parse_face_point_triplet rest).2.2).1 = ObjTripletFormat.ERROR
      · rw [if_pos e2]
        simp
      · rw [if_neg e2]
        by_cases e3 : (parse_face_point_triplet (parse_face_point_triplet
            (parse_face_point_triplet rest).2.2).2.2).1 = ObjTripletFormat.ERROR
        · rw [if_pos e3]
          simp
        · rw [if_neg e3]
          have hne : ¬((parse_face_point_triplet rest).1 =
              (parse_face_point_triplet (parse_face_point_triplet rest).2.2).1 ∧
              (parse_face_point_triplet (parse_face_point_triplet rest).2.2).1 =
              (parse_face_point_triplet (parse_face_point_triplet
                (parse_face_point_triplet rest).2.2).2.2).1) := by
            rcases hbad with ((h1 | h2) | h3) | hne
            · exact absurd h1 e1
            · exact absurd h2 e2
            · exact absurd h3 e3
            · exact hne
          rw [if_pos hne]
          simp

theorem process_obj_lines_abort :
    ∀ (lines : List (List Char)) (st : ObjState),
      (∃ l ∈ lines, face_line_fails l = true) →
      process_obj_lines st lines = none := by
  intro lines
  induction lines with
  | nil =>
    intro st h
    obtain ⟨l, hl, _⟩ := h
    exact absurd hl (List.not_mem_nil l)
  | cons a ls ih =>
    intro st h
    obtain ⟨l, hl, hfail⟩ := h
    rw [process_obj_lines]
    rcases List.mem_cons.mp hl with rfl | hl'
    · rw [process_obj_line_fails l st hfail]
    · cases ha : process_obj_line st a with
      | none => rfl
      | some st' => exact ih st' ⟨l, hl', hfail⟩

/-- Claim C7: `load_mesh_from_obj` returns a null mesh when the file cannot
be opened, and returns a null mesh whenever some line of the file is a
malformed face line (a face-vertex triplet that fails to parse, or three
triplets of differing forms): the parse error sets the `failed` flag, aborts
the scan, and no mesh is allocated. -/
theorem load_mesh_from_obj_null_on_malformed_face :
    load_mesh_from_obj none = none ∧
    ∀ lines : List (List Char), (∃ l ∈ lines, face_line_fails l = true) →
      load_mesh_from_obj (some lines) = none := by
  refine ⟨rfl, fun lines h => ?_⟩
  rw [load_mesh_from_obj, process_obj_lines_abort lines ⟨[], [], [], []⟩ h]
  rfl

/-- The malformed face line `f 1/` (a dangling slash at end of line). -/
def badFaceLine : List Char := ['f', ' ', '1', '/']

/-- Claim C7, witness: the theorem applied to the two-line file
`v 0 0 0` / `f 1/`. -/
theorem load_mesh_from_obj_null_witness :
    face_line_fails badFaceLine = true ∧
    load_mesh_from_obj (some [['v', ' ', '0', ' ', '0', ' ', '0'], badFaceLine]) =
      none := by
  refine ⟨by decide, ?_⟩
  exact load_mesh_from_obj_null_on_malformed_face.2 _
    ⟨badFaceLine, by decide, by decide⟩

/-- Pixel conversion of `load_bitmap_from_file` (`load_resources.cpp`): for
each output row `i`, the source row is `i * row_bytes` for a negative
(top-down) height and `(pos_height - 1 - i) * row_bytes` for a positive
(bottom-up) height, rows being padded to a 4-byte multiple; each pixel's four
(respectively three) bytes are aggregate-assigned to the `RGBAPixel` fields
in declaration order `a, b, g, r`, with `a = 255` prefixed for 24-bit
input. -/
def load_bitmap_pixels (width : Nat) (height : Int) (bpp : Nat)
    (raw : List Nat) : List RGBAPixel :=
  let pos_height := height.natAbs
  let bytes_px := bpp / 8
  let line_bytes := width * bytes_px
  let padding := if line_bytes % 4 = 0 then 0 else 4 - line_bytes % 4
  let row_bytes := line_bytes + padding
  (List.range pos_height).flatMap (fun i =>
    let line_index := if height < 0 then i * row_bytes
      else (pos_height - 1 - i) * row_bytes
    (List.range width).map (fun j =>
      let pi := line_index + j * bytes_px
      if bpp = 32 then
        ⟨raw.getD pi 0, raw.getD (pi + 1) 0, raw.getD (pi + 2) 0, raw.getD (pi + 3) 0⟩
      else if bpp = 24 then
        ⟨255, raw.getD pi 0, raw.getD (pi + 1) 0, raw.getD (pi + 2) 0⟩
      else (⟨0, 0, 0, 0⟩ : RGBAPixel)))

/-- Claim C8: refuted on the code for 32-bit input.  A BMP pixel is stored on
disk as the bytes `B, G, R (, A)`.  For a 1×1 32-bit bitmap with bytes
`B=1, G=2, R=3, A=4`, the loader aggregate-assigns the four bytes to the
`RGBAPixel` fields in their declaration order `a, b, g, r`, so the output
pixel has `r = 4` (the alpha byte), `g = 3` (the red byte), `b = 2` (the
green byte) and `a = 1` (the blue byte) — not `r = 3, g = 2, b = 1, a = 4`
as the claim requires.  The 24-bit branch prefixes `a = 255` and is correct
(`r = R, g = G, b = B`), which shows the intended field convention. -/
theorem load_bitmap_32bpp_channel_swap :
    load_bitmap_pixels 1 1 32 [1, 2, 3, 4] = [⟨1, 2, 3, 4⟩] ∧
    (RGBAPixel.mk 1 2 3 4).r = 4 ∧ (RGBAPixel.mk 1 2 3 4).g = 3 ∧
    (RGBAPixel.mk 1 2 3 4).b = 2 ∧ (RGBAPixel.mk 1 2 3 4).a = 1 ∧
    ¬((RGBAPixel.mk 1 2 3 4).r = 3 ∧ (RGBAPixel.mk 1 2 3 4).g = 2 ∧
      (RGBAPixel.mk 1 2 3 4).b = 1 ∧ (RGBAPixel.mk 1 2 3 4).a = 4) ∧
    load_bitmap_pixels 1 1 24 [1, 2, 3] = [⟨255, 1, 2, 3⟩] ∧
    (RGBAPixel.mk 255 1 2 3).r = 3 ∧ (RGBAPixel.mk 255 1 2 3).g = 2 ∧
    (RGBAPixel.mk 255 1 2 3).b = 1 ∧ (RGBAPixel.mk 255 1 2 3).a = 255 := by
  decide
